import Mathlib

/-!
Span-hierarchy tracker of the workflow executor.

Shallow embedding of `template/faas-flow/executor/trace_handler.go`.

The tracer backend (the `tracer` and `closer` fields of the Go struct) is an
external collaborator. It is modelled as an oracle `Tracer` whose answers may
depend on the sequence of backend calls issued so far, and every call the
handler makes on it (or on one of its spans) is appended to a call log.
A Go panic (method call on a nil interface value, assignment to an entry of a
nil map) is modelled as `Except.error`.
-/

namespace Executor

/-- Handle of a span object created by the backend (a non-nil `opentracing.Span`). -/
abbrev Span := Nat

/-- A non-nil `opentracing.SpanContext`: either what `Context()` returns on a span
of this process, or a context the backend produced from inbound headers. -/
inductive SpanContext where
  | ofSpan (s : Span)
  | remote (n : Nat)
  deriving DecidableEq, Repr

/-- An `http.Header`: canonical key, list of values. -/
abbrev Header := List (String × List String)

/-- The Go method `http.Header.Get`: first value stored under the key, or the empty string. -/
def Header.Get (h : Header) (key : String) : String :=
  match h.lookup key with
  | some (v :: _) => v
  | _ => ""

/-- Start options the handler passes to `StartSpan`:
`ext.RPCServerOption(ctx)` (the context may be nil) and `opentracing.ChildOf(ctx)`. -/
inductive StartSpanOption where
  | RPCServerOption (client : Option SpanContext)
  | ChildOf (ctx : SpanContext)
  deriving DecidableEq, Repr

/-- Modelled from the spec: the option constructors `ext.RPCServerOption` and
`opentracing.ChildOf` belong to the tracing library, not to this repository.
A span started with `RPCServerOption ctx` is a child of `ctx` when a context is
given and a root otherwise; a span started with `ChildOf ctx` is a child of `ctx`. -/
def StartSpanOption.parent : StartSpanOption → Option SpanContext
  | .RPCServerOption client => client
  | .ChildOf ctx => some ctx

/-- Parent reference carried by a list of start options (none for a root span). -/
def parentOf (opts : List StartSpanOption) : Option SpanContext :=
  opts.findSome? StartSpanOption.parent

/-- One call issued on the backend: on the tracer (`StartSpan`, `Extract`, `Inject`),
on a span (`SetTag`, `Finish`) or on the closer (`Close`). -/
inductive Call where
  | StartSpan (name : String) (opts : List StartSpanOption)
  | SetTag (s : Span) (key value : String)
  | Finish (s : Span)
  | Extract (carrier : Header)
  | Inject (s : Span) (ctx : SpanContext) (carrier : Header)
  | Close
  deriving DecidableEq, Repr

/-- The backend as an oracle. Each answer may depend on the calls issued so far.
`StartSpan` answers a span or nil; `Extract` answers a context (or nil) and an error
(or nil); `Inject`, called on the tracer of span `s`, answers the carrier as it
stands after the call and an error (or nil). An error is its message. -/
structure Tracer where
  StartSpan : List Call → String → List StartSpanOption → Option Span
  Extract : List Call → Header → Option SpanContext × Option String
  Inject : List Call → Span → SpanContext → Header → Header × Option String

/-- What the handler does to its environment: the backend calls it issued, oldest
first, and the lines it printed with `fmt.Printf`. -/
structure World where
  calls : List Call
  stdout : List String

/-- Append one backend call to the log. -/
def World.call (w : World) (c : Call) : World :=
  { w with calls := w.calls ++ [c] }

/-- Append one printed line. -/
def World.print (w : World) (line : String) : World :=
  { w with stdout := w.stdout ++ [line] }

/-- A Go `map[string]opentracing.Span` that is not nil. Reading a key that is absent
and reading a key that holds a nil span both give nil (`none`). -/
abbrev SpanMap := String → Option Span

/-- The Go struct `traceHandler` without its `tracer` and `closer` fields, which are the
backend. `none` stands for nil: a nil interface value in `reqSpan` and `reqSpanCtx`,
a nil map in `nodeSpans` and `operationSpans`. An entry of `operationSpans` is absent
(`none`), or present holding a nil map (`some none`) or a map (`some (some m)`).
Maps are values here: two entries never share storage. -/
structure traceHandler where
  reqSpan : Option Span
  reqSpanCtx : Option SpanContext
  nodeSpans : Option SpanMap
  operationSpans : Option (String → Option (Option SpanMap))

/-- The two Go panics the handler can raise. -/
inductive Fault where
  | nilDereference
  | nilMapAssignment
  deriving DecidableEq, Repr

/-- Go map read `m[k]` on a span map that may be nil. -/
def spanAt (m : Option SpanMap) (k : String) : Option Span :=
  match m with
  | none => none
  | some f => f k

/-- Go map read with presence `v, ok := m[k]` on the outer operation map:
`none` when the key is absent (or the map nil), otherwise the stored inner map. -/
def opMapAt (m : Option (String → Option (Option SpanMap))) (k : String) :
    Option (Option SpanMap) :=
  match m with
  | none => none
  | some f => f k

/-- Go map write `m[k] = v` on a map that is not nil. -/
def mapSet {α : Type} (m : String → α) (k : String) (v : α) : String → α :=
  fun k' => if k' = k then v else m k'

/-- The read `nodeSpans[node]`. -/
def traceHandler.nodeSpan (h : traceHandler) (node : String) : Option Span :=
  spanAt h.nodeSpans node

/-- The read `operationSpans[node][operationID]`; a nil or absent inner map reads nil. -/
def traceHandler.operationSpan (h : traceHandler) (node operationID : String) : Option Span :=
  match opMapAt h.operationSpans node with
  | some inner => spanAt inner operationID
  | none => none

/-- The call `sp.SetTag(key, value)` on an interface value that may be nil. -/
def setTag (sp : Option Span) (key value : String) (w : World) : Except Fault World :=
  match sp with
  | none => .error .nilDereference
  | some s => .ok (w.call (.SetTag s key value))

/-- The call `sp.Finish()` on an interface value that may be nil. -/
def finish (sp : Option Span) (w : World) : Except Fault World :=
  match sp with
  | none => .error .nilDereference
  | some s => .ok (w.call (.Finish s))

/-- The Go method `startReqSpan`. -/
def startReqSpan (t : Tracer) (h : traceHandler) (w : World) (reqID : String) :
    Except Fault (traceHandler × World) :=
  let h1 := { h with reqSpan := t.StartSpan w.calls reqID [] }
  let w1 := w.call (.StartSpan reqID [])
  match setTag h1.reqSpan "request" reqID w1 with
  | .error e => .error e
  | .ok w2 =>
    match h1.reqSpan with
    | none => .error .nilDereference
    | some s => .ok ({ h1 with reqSpanCtx := some (.ofSpan s) }, w2)

/-- The Go method `continueReqSpan`. -/
def continueReqSpan (t : Tracer) (h : traceHandler) (w : World) (reqID : String)
    (header : Header) : Except Fault (traceHandler × World) :=
  let r := t.Extract w.calls header
  let h1 := { h with reqSpanCtx := r.1 }
  let w1 := w.call (.Extract header)
  match r.2 with
  | some err =>
    .ok (h1, w1.print ("[Request " ++ reqID ++
      "] failed to continue req span for tracing, error " ++ err ++ "\n"))
  | none => .ok ({ h1 with reqSpan := none }, w1)

/-- Modelled from the spec: the tag names of the tracing library (`ext.SpanKindRPCClient`,
`ext.HTTPUrl`, `ext.HTTPMethod`) are not part of this repository. `Set` on them is
`SetTag` with the key `span.kind` and value `client`, the key `http.url`, and the key
`http.method`. -/
def extTags (url : String) : List (String × String) :=
  [("span.kind", "client"), ("http.url", url), ("http.method", "POST")]

/-- The Go method `extendReqSpan`. The request is given by its header map; the result
carries the header map as it stands after the call. -/
def extendReqSpan (t : Tracer) (h : traceHandler) (w : World) (reqID lastNode url : String)
    (reqHeader : Header) : Except Fault (traceHandler × World × Header) :=
  match h.nodeSpan lastNode with
  | none => .ok (h, w, reqHeader)
  | some span =>
    let w1 := (extTags url).foldl (fun acc kv => acc.call (.SetTag span kv.1 kv.2)) w
    let r := t.Inject w1.calls span (.ofSpan span) reqHeader
    let w2 := w1.call (.Inject span (.ofSpan span) reqHeader)
    let w3 := match r.2 with
      | some err => w2.print ("[Request " ++ reqID ++
          "] failed to extend req span for tracing, error " ++ err ++ "\n")
      | none => w2
    let w4 := if Header.Get r.1 "Uber-Trace-Id" = "" then
        w3.print ("[Request " ++ reqID ++
          "] failed to extend req span for tracing, error Uber-Trace-Id not set\n")
      else w3
    .ok (h, w4, r.1)

/-- The Go method `stopReqSpan`. -/
def stopReqSpan (h : traceHandler) (w : World) : Except Fault (traceHandler × World) :=
  match h.reqSpan with
  | none => .ok (h, w)
  | some s => .ok (h, w.call (.Finish s))

/-- The Go method `startNodeSpan`. The right-hand side `StartSpan` is evaluated before
the map assignment is carried out. -/
def startNodeSpan (t : Tracer) (h : traceHandler) (w : World) (node reqID : String) :
    Except Fault (traceHandler × World) :=
  let r := t.StartSpan w.calls node [.RPCServerOption h.reqSpanCtx]
  let w1 := w.call (.StartSpan node [.RPCServerOption h.reqSpanCtx])
  match h.nodeSpans with
  | none => .error .nilMapAssignment
  | some m =>
    let h1 := { h with nodeSpans := some (mapSet m node r) }
    match setTag (h1.nodeSpan node) "async" "true" w1 with
    | .error e => .error e
    | .ok w2 =>
      match setTag (h1.nodeSpan node) "request" reqID w2 with
      | .error e => .error e
      | .ok w3 =>
        match setTag (h1.nodeSpan node) "node" node w3 with
        | .error e => .error e
        | .ok w4 => .ok (h1, w4)

/-- The Go method `stopNodeSpan`. -/
def stopNodeSpan (h : traceHandler) (w : World) (node : String) :
    Except Fault (traceHandler × World) :=
  match finish (h.nodeSpan node) w with
  | .error e => .error e
  | .ok w1 => .ok (h, w1)

/-- The lookup-or-create at the head of `startOperationSpan`:
`operationSpans, ok := tracerObj.operationSpans[node]`, and when the key is absent a
fresh map is made and stored. Answers the handler and the inner map (nil when the key
holds a nil map). -/
def ensureOperationMap (h : traceHandler) (node : String) :
    Except Fault (traceHandler × Option SpanMap) :=
  match opMapAt h.operationSpans node with
  | some inner => .ok (h, inner)
  | none =>
    match h.operationSpans with
    | none => .error .nilMapAssignment
    | some outer =>
      .ok ({ h with operationSpans := some (mapSet outer node (some (some fun _ => none))) },
        some fun _ => none)

/-- The Go method `startOperationSpan`. The inner map is a reference: the write
`operationSpans[operationID] = ...` shows in `tracerObj.operationSpans[node]`. -/
def startOperationSpan (t : Tracer) (h : traceHandler) (w : World)
    (node reqID operationID : String) : Except Fault (traceHandler × World) :=
  match h.nodeSpan node with
  | none => .ok (h, w)
  | some nodeSpan =>
    match ensureOperationMap h node with
    | .error e => .error e
    | .ok (h1, inner) =>
      let nodeContext := SpanContext.ofSpan nodeSpan
      let r := t.StartSpan w.calls operationID [.ChildOf nodeContext]
      let w1 := w.call (.StartSpan operationID [.ChildOf nodeContext])
      match inner, h1.operationSpans with
      | some m, some outer =>
        let h2 := { h1 with
          operationSpans := some (mapSet outer node (some (some (mapSet m operationID r)))) }
        match setTag (h2.operationSpan node operationID) "request" reqID w1 with
        | .error e => .error e
        | .ok w2 =>
          match setTag (h2.operationSpan node operationID) "node" node w2 with
          | .error e => .error e
          | .ok w3 =>
            match setTag (h2.operationSpan node operationID) "operation" operationID w3 with
            | .error e => .error e
            | .ok w4 => .ok (h2, w4)
      | _, _ => .error .nilMapAssignment

/-- The Go method `stopOperationSpan`. -/
def stopOperationSpan (h : traceHandler) (w : World) (node operationID : String) :
    Except Fault (traceHandler × World) :=
  match h.nodeSpan node with
  | none => .ok (h, w)
  | some _ =>
    match finish (h.operationSpan node operationID) w with
    | .error e => .error e
    | .ok w1 => .ok (h, w1)

/-- The Go method `flushTracer`. -/
def flushTracer (h : traceHandler) (w : World) : Except Fault (traceHandler × World) :=
  .ok (h, w.call .Close)

/-- The nine handler operations as data, for runs of several operations. -/
inductive Op where
  | startReqSpan (reqID : String)
  | continueReqSpan (reqID : String) (header : Header)
  | extendReqSpan (reqID lastNode url : String) (reqHeader : Header)
  | stopReqSpan
  | startNodeSpan (node reqID : String)
  | stopNodeSpan (node : String)
  | startOperationSpan (node reqID operationID : String)
  | stopOperationSpan (node operationID : String)
  | flushTracer
  deriving DecidableEq, Repr

/-- Run one operation on a handler and its environment. -/
def step (t : Tracer) (h : traceHandler) (w : World) : Op → Except Fault (traceHandler × World)
  | .startReqSpan reqID => startReqSpan t h w reqID
  | .continueReqSpan reqID header => continueReqSpan t h w reqID header
  | .extendReqSpan reqID lastNode url reqHeader =>
    match extendReqSpan t h w reqID lastNode url reqHeader with
    | .error e => .error e
    | .ok (h1, w1, _) => .ok (h1, w1)
  | .stopReqSpan => stopReqSpan h w
  | .startNodeSpan node reqID => startNodeSpan t h w node reqID
  | .stopNodeSpan node => stopNodeSpan h w node
  | .startOperationSpan node reqID operationID => startOperationSpan t h w node reqID operationID
  | .stopOperationSpan node operationID => stopOperationSpan h w node operationID
  | .flushTracer => flushTracer h w

/-- Run a sequence of operations, stopping at the first fault. -/
def run (t : Tracer) (h : traceHandler) (w : World) : List Op → Except Fault (traceHandler × World)
  | [] => .ok (h, w)
  | op :: ops =>
    match step t h w op with
    | .error e => .error e
    | .ok (h1, w1) => run t h1 w1 ops

/-- A handler as the executor makes it: no request trace, both maps made and empty. -/
def emptyHandler : traceHandler :=
  { reqSpan := none, reqSpanCtx := none,
    nodeSpans := some fun _ => none, operationSpans := some fun _ => none }

/-- An environment in which nothing has happened yet. -/
def emptyWorld : World := { calls := [], stdout := [] }

/-- Number of `StartSpan` calls in a call log. -/
def startCount (calls : List Call) : Nat :=
  (calls.filter fun c => match c with | .StartSpan _ _ => true | _ => false).length

/-- A sample backend: `StartSpan` numbers the spans it hands out 1, 2, 3, ...;
`Extract` finds the context `remote 7` when the carrier has an `Uber-Trace-Id` entry and
fails otherwise; `Inject` writes an `Uber-Trace-Id` entry and succeeds. -/
def sampleTracer : Tracer :=
  { StartSpan := fun calls _ _ => some (startCount calls + 1)
    Extract := fun _ carrier =>
      if Header.Get carrier "Uber-Trace-Id" = "" then
        (none, some "opentracing: SpanContext not found in Extract carrier")
      else (some (.remote 7), none)
    Inject := fun _ _ _ carrier => (("Uber-Trace-Id", ["trace"]) :: carrier, none) }

/-- A sample backend that refuses propagation: `Extract` and `Inject` both answer an
error, and `Inject` leaves the carrier as it was. -/
def refusingTracer : Tracer :=
  { StartSpan := fun calls _ _ => some (startCount calls + 1)
    Extract := fun _ _ => (none, some "extract refused")
    Inject := fun _ _ _ carrier => (carrier, some "inject refused") }

/-- A sample handler that owns request span 1 and stores node span 2 for node `A`,
with no operation map yet. -/
def sampleHandler : traceHandler :=
  { reqSpan := some 1, reqSpanCtx := some (.ofSpan 1),
    nodeSpans := some (mapSet (fun _ => none) "A" (some 2)),
    operationSpans := some fun _ => none }

/-- The sample handler after operation `op1` of node `A` got span 3. -/
def sampleHandlerOp : traceHandler :=
  { sampleHandler with
    operationSpans := some (mapSet (fun _ => none) "A"
      (some (some (mapSet (fun _ => none) "op1" (some 3))))) }

/-- A handler whose node map is made and holds span 2 for node `A`, and whose
operation map was never made (nil). -/
def nilOperationMapHandler : traceHandler :=
  { sampleHandler with operationSpans := none }

/-- The zero value of the Go struct: no request trace and both maps nil. -/
def zeroHandler : traceHandler :=
  { reqSpan := none, reqSpanCtx := none, nodeSpans := none, operationSpans := none }

/-- The places where the handler keeps a span: the owned request span, the entry of
a node, the entry of an operation of a node. -/
inductive Key where
  | req
  | node (n : String)
  | operation (n o : String)
  deriving DecidableEq, Repr

/-- The span kept at a place, nil when there is none. -/
def traceHandler.stored (h : traceHandler) : Key → Option Span
  | .req => h.reqSpan
  | .node n => h.nodeSpan n
  | .operation n o => h.operationSpan n o

/-- The place whose span a stop operation finishes. -/
def Op.stops : Op → Option Key
  | .stopReqSpan => some .req
  | .stopNodeSpan n => some (.node n)
  | .stopOperationSpan n o => some (.operation n o)
  | _ => none

/-- The place where a start operation stores the span it asks for. -/
def Op.starts : Op → Option Key
  | .startReqSpan _ => some .req
  | .startNodeSpan n _ => some (.node n)
  | .startOperationSpan n _ o => some (.operation n o)
  | _ => none

/-- After the calls `calls` the backend never answers span `s` to a `StartSpan`. -/
def Retired (t : Tracer) (calls : List Call) (s : Span) : Prop :=
  ∀ l n o, t.StartSpan (calls ++ l) n o ≠ some s

/-- The backend never hands out the same span twice: a span answered to a `StartSpan`
is not answered again once that call is in the log. -/
def Fresh (t : Tracer) : Prop :=
  ∀ l n o s, t.StartSpan l n o = some s → Retired t (l ++ [Call.StartSpan n o]) s

/-- The contexts `Extract` answers are not contexts of spans of this process. -/
def RemoteExtract (t : Tracer) : Prop :=
  ∀ l hdr s, (t.Extract l hdr).1 ≠ some (.ofSpan s)

/-- What one operation that returned normally did, in one of three shapes: it asked
the backend for a span and stored the answer at one place; or it issued `Finish` on
the span stored at one place; or it issued neither and stored nothing. -/
inductive Effect (t : Tracer) (h : traceHandler) (w : World) (h1 : traceHandler) (w1 : World)
    (op : Op) : Prop where
  | start (K : Key) (name : String) (opts : List StartSpanOption) (s' : Span)
      (tags : List Call)
      (hK : op.starts = some K)
      (hnostop : op.stops = none)
      (hans : t.StartSpan w.calls name opts = some s')
      (hcalls : w1.calls = w.calls ++ Call.StartSpan name opts :: tags)
      (htags : ∀ c ∈ tags, ∃ k v, c = Call.SetTag s' k v)
      (hst : h1.stored K = some s')
      (hframe : ∀ K', K' ≠ K → h1.stored K' = h.stored K')
      (hparent : ∀ n o, K = .operation n o → ∃ sn, h.stored (.node n) = some sn)
      (hctx : h1.reqSpanCtx = if K = .req then some (.ofSpan s') else h.reqSpanCtx)
      (hopts : ∀ c, opts = [.RPCServerOption c] → (∃ n, K = .node n) ∧ c = h.reqSpanCtx) :
      Effect t h w h1 w1 op
  | stop (K : Key) (s : Span)
      (hstops : op.stops = some K)
      (hst : h.stored K = some s)
      (hcalls : w1.calls = w.calls ++ [Call.Finish s])
      (hh : h1 = h) :
      Effect t h w h1 w1 op
  | quiet (l : List Call)
      (hnostart : op.starts = none ∨
        ∃ n r o, op = .startOperationSpan n r o ∧ h.nodeSpan n = none)
      (hcalls : w1.calls = w.calls ++ l)
      (hnofin : ∀ s, Call.Finish s ∉ l)
      (hnonew : ∀ n o, Call.StartSpan n o ∉ l)
      (hframe : ∀ K, K ≠ .req → h1.stored K = h.stored K)
      (hreq : (h1.reqSpanCtx = h.reqSpanCtx ∧ h1.reqSpan = h.reqSpan) ∨
        ((∃ l' hdr, h1.reqSpanCtx = (t.Extract l' hdr).1) ∧
          (h1.reqSpan = h.reqSpan ∨ h1.reqSpan = none))) :
      Effect t h w h1 w1 op

/-- The invariant of a handler driven on a backend that never hands out a span twice:
every stored span and every finished span is one the backend will not answer again,
and no span is stored at two places. -/
structure Inv (t : Tracer) (h : traceHandler) (w : World) : Prop where
  storedRetired : ∀ K s, h.stored K = some s → Retired t w.calls s
  finishedRetired : ∀ s, Call.Finish s ∈ w.calls → Retired t w.calls s
  injective : ∀ K1 K2 s, h.stored K1 = some s → h.stored K2 = some s → K1 = K2

/-- Span `s` is orphaned in the state `(h1, w1)`: it is stored nowhere in the handler,
and after every further run that returns normally it is still stored nowhere and has
received no more `Finish` than the log `calls0` holds. -/
def Orphaned (t : Tracer) (s : Span) (calls0 : List Call) (h1 : traceHandler) (w1 : World) :
    Prop :=
  (∀ K, h1.stored K ≠ some s) ∧
  ∀ ops h2 w2, run t h1 w1 ops = .ok (h2, w2) →
    (∀ K, h2.stored K ≠ some s) ∧ w2.calls.count (.Finish s) = calls0.count (.Finish s)

/-- Along the run of `ops` from `(h, w)`, no stop operation is called for a place
whose stored span has already received `Finish`. -/
def StopsUnfinished (t : Tracer) : traceHandler → World → List Op → Prop
  | _, _, [] => True
  | h, w, op :: ops =>
    (∀ K s, op.stops = some K → h.stored K = some s → Call.Finish s ∉ w.calls) ∧
    ∀ h1 w1, step t h w op = .ok (h1, w1) → StopsUnfinished t h1 w1 ops

/-- A discipline of the caller, read off the sequence alone: no place is stopped
twice without being started again in between. `stopped` lists the places that were
stopped and not started since. -/
def stopsOnce : List Key → List Op → Bool
  | _, [] => true
  | stopped, op :: ops =>
    match op.stops with
    | some K => !stopped.contains K && stopsOnce (K :: stopped) ops
    | none =>
      match op.starts with
      | some K => stopsOnce (stopped.filter (fun K' => K' ≠ K)) ops
      | none => stopsOnce stopped ops

/-- What the request context of the handler refers to, as far as the sequence of
operations tells: no span of this process, the owned request span before any
`stopReqSpan`, or the owned request span after a `stopReqSpan`. -/
inductive ReqTrace where
  | unowned
  | live
  | stopped
  deriving DecidableEq, Repr

/-- How one operation moves the request trace: `startReqSpan` makes it live,
`continueReqSpan` makes it unowned, `stopReqSpan` stops a live one. -/
def ReqTrace.next : ReqTrace → Op → ReqTrace
  | _, .startReqSpan _ => .live
  | _, .continueReqSpan _ _ => .unowned
  | .live, .stopReqSpan => .stopped
  | r, _ => r

/-- The request trace after a sequence of operations on the empty handler. -/
def reqTrace (ops : List Op) : ReqTrace :=
  ops.foldl ReqTrace.next .unowned

/-- A sample backend that hands out spans again: `StartSpan` answers 1, 2, 1, 2, ...;
`Extract` fails and `Inject` leaves the carrier as it is. -/
def recyclingTracer : Tracer :=
  { StartSpan := fun calls _ _ => some (startCount calls % 2 + 1)
    Extract := fun _ _ => (none, some "extract refused")
    Inject := fun _ _ _ carrier => (carrier, none) }

/-- What a request trace says about a handler and its call log: unowned, the request
context is not the context of a span of this process; live, it is the context of
the owned request span, which has received no `Finish`; stopped, it is the context of
the owned request span, which has received `Finish`. -/
def ReqTrace.Holds (tr : ReqTrace) (h : traceHandler) (w : World) : Prop :=
  match tr with
  | .unowned => ∀ s, h.reqSpanCtx ≠ some (.ofSpan s)
  | .live => ∃ s, h.reqSpanCtx = some (.ofSpan s) ∧ h.reqSpan = some s ∧
      Call.Finish s ∉ w.calls
  | .stopped => ∃ s, h.reqSpanCtx = some (.ofSpan s) ∧ h.reqSpan = some s ∧
      Call.Finish s ∈ w.calls

/-- Span `s` is stored at place `K` and at no other place of the handler. -/
def StoredOnlyAt (h : traceHandler) (K : Key) (s : Span) : Prop :=
  h.stored K = some s ∧ ∀ K', h.stored K' = some s → K' = K

/-- An operation that is neither `startReqSpan` nor `continueReqSpan`. -/
def Op.keepsContext (op : Op) : Prop :=
  (∀ r, op ≠ .startReqSpan r) ∧ ∀ r hd, op ≠ .continueReqSpan r hd

/-- The operations after the latest `startReqSpan` of the sequence include a
`stopReqSpan` and no `continueReqSpan`. -/
def StoppedAfterLatestStart (ops : List Op) : Prop :=
  ∃ pre r post, ops = pre ++ Op.startReqSpan r :: post ∧
    (∀ op ∈ post, op.keepsContext) ∧ Op.stopReqSpan ∈ post

/-- The sequence has a `startReqSpan` that is followed by no `startReqSpan`,
`continueReqSpan` or `stopReqSpan`. -/
def LiveAfterLatestStart (ops : List Op) : Prop :=
  ∃ pre r post, ops = pre ++ Op.startReqSpan r :: post ∧
    (∀ op ∈ post, op.keepsContext) ∧ Op.stopReqSpan ∉ post

/-! Request level. -/

/-- Every operation other than `startReqSpan` leaves an absent owned request span absent. -/
theorem step_reqSpan_none (t : Tracer) (h h1 : traceHandler) (w w1 : World) (op : Op)
    (hop : ∀ reqID, op ≠ .startReqSpan reqID) (hn : h.reqSpan = none)
    (hs : step t h w op = .ok (h1, w1)) : h1.reqSpan = none := by
  cases op with
  | startReqSpan reqID => exact absurd rfl (hop reqID)
  | continueReqSpan reqID header =>
    simp only [step, continueReqSpan] at hs
    split at hs <;> simp only [Except.ok.injEq, Prod.mk.injEq] at hs <;>
      obtain ⟨rfl, -⟩ := hs <;> simp [hn]
  | extendReqSpan reqID lastNode url reqHeader =>
    simp only [step, extendReqSpan] at hs
    split at hs
    · simp at hs
    · rename_i h2 w2 hd heq
      simp only [Except.ok.injEq, Prod.mk.injEq] at hs
      obtain ⟨rfl, -⟩ := hs
      split at heq <;> simp only [Except.ok.injEq, Prod.mk.injEq] at heq <;>
        obtain ⟨rfl, -⟩ := heq <;> exact hn
  | stopReqSpan =>
    simp only [step, stopReqSpan] at hs
    split at hs <;> simp only [Except.ok.injEq, Prod.mk.injEq] at hs <;>
      obtain ⟨rfl, -⟩ := hs <;> exact hn
  | startNodeSpan node reqID =>
    simp only [step, startNodeSpan] at hs
    split at hs
    · simp at hs
    · split at hs
      · simp at hs
      · split at hs
        · simp at hs
        · split at hs
          · simp at hs
          · simp only [Except.ok.injEq, Prod.mk.injEq] at hs
            obtain ⟨rfl, -⟩ := hs
            exact hn
  | stopNodeSpan node =>
    simp only [step, stopNodeSpan] at hs
    split at hs
    · simp at hs
    · simp only [Except.ok.injEq, Prod.mk.injEq] at hs
      obtain ⟨rfl, -⟩ := hs
      exact hn
  | startOperationSpan node reqID operationID =>
    simp only [step, startOperationSpan] at hs
    split at hs
    · simp only [Except.ok.injEq, Prod.mk.injEq] at hs
      obtain ⟨rfl, -⟩ := hs
      exact hn
    · split at hs
      · simp at hs
      · rename_i h2 inner heq
        have h2r : h2.reqSpan = none := by
          simp only [ensureOperationMap] at heq
          split at heq
          · simp only [Except.ok.injEq, Prod.mk.injEq] at heq
            obtain ⟨rfl, -⟩ := heq
            exact hn
          · split at heq
            · simp at heq
            · simp only [Except.ok.injEq, Prod.mk.injEq] at heq
              obtain ⟨rfl, -⟩ := heq
              exact hn
        split at hs
        · split at hs
          · simp at hs
          · split at hs
            · simp at hs
            · split at hs
              · simp at hs
              · simp only [Except.ok.injEq, Prod.mk.injEq] at hs
                obtain ⟨rfl, -⟩ := hs
                exact h2r
        · simp at hs
  | stopOperationSpan node operationID =>
    simp only [step, stopOperationSpan] at hs
    split at hs
    · simp only [Except.ok.injEq, Prod.mk.injEq] at hs
      obtain ⟨rfl, -⟩ := hs
      exact hn
    · split at hs
      · simp at hs
      · simp only [Except.ok.injEq, Prod.mk.injEq] at hs
        obtain ⟨rfl, -⟩ := hs
        exact hn
  | flushTracer =>
    simp only [step, flushTracer, Except.ok.injEq, Prod.mk.injEq] at hs
    obtain ⟨rfl, -⟩ := hs
    exact hn

/-- A run in which `startReqSpan` never occurs leaves an absent owned request span absent. -/
theorem run_reqSpan_none (t : Tracer) (ops : List Op) :
    ∀ (h h1 : traceHandler) (w w1 : World),
      (∀ reqID, Op.startReqSpan reqID ∉ ops) → h.reqSpan = none →
      run t h w ops = .ok (h1, w1) → h1.reqSpan = none := by
  induction ops with
  | nil =>
    intro h h1 w w1 _ hn hr
    simp only [run, Except.ok.injEq, Prod.mk.injEq] at hr
    obtain ⟨rfl, -⟩ := hr
    exact hn
  | cons op ops ih =>
    intro h h1 w w1 hno hn hr
    simp only [run] at hr
    split at hr
    · simp at hr
    · rename_i h2 w2 heq
      have hop : ∀ reqID, op ≠ .startReqSpan reqID := by
        intro reqID hc
        exact hno reqID (by simp [hc])
      have h2n := step_reqSpan_none t h h2 w w2 op hop hn heq
      exact ih h2 h1 w2 w1 (fun reqID hm => hno reqID (List.mem_cons_of_mem _ hm)) h2n hr

/-- C1: `stopReqSpan` issues exactly one `Finish`, on the owned request span, when
`reqSpan` is present, and no backend call at all when it is absent; in both cases it
returns normally and leaves the handler (reqSpan, reqSpanCtx, nodeSpans,
operationSpans) as it was. In particular it is a no-op after any run from the empty
handler in which `startReqSpan` was never called. -/
theorem stopReqSpan_finishes_owned_span_only (t : Tracer) (h : traceHandler) (w : World) :
    (∀ s, h.reqSpan = some s → stopReqSpan h w = .ok (h, w.call (.Finish s))) ∧
    (h.reqSpan = none → stopReqSpan h w = .ok (h, w)) ∧
    (∀ ops h1 w1, (∀ reqID, Op.startReqSpan reqID ∉ ops) →
      run t emptyHandler emptyWorld ops = .ok (h1, w1) →
      stopReqSpan h1 w1 = .ok (h1, w1)) := by
  refine ⟨?_, ?_, ?_⟩
  · intro s hs
    simp [stopReqSpan, hs]
  · intro hn
    simp [stopReqSpan, hn]
  · intro ops h1 w1 hno hr
    have hn := run_reqSpan_none t ops emptyHandler h1 emptyWorld w1 hno rfl hr
    simp [stopReqSpan, hn]

/-- Witness for C1: the sample handler owns span 1, the empty handler owns none, and a
run without `startReqSpan` ends in a handler on which `stopReqSpan` does nothing. -/
theorem stopReqSpan_finishes_owned_span_only_witness :
    stopReqSpan sampleHandler emptyWorld = .ok (sampleHandler, emptyWorld.call (.Finish 1)) ∧
    stopReqSpan emptyHandler emptyWorld = .ok (emptyHandler, emptyWorld) ∧
    stopReqSpan emptyHandler (emptyWorld.call .Close) =
      .ok (emptyHandler, emptyWorld.call .Close) :=
  ⟨(stopReqSpan_finishes_owned_span_only sampleTracer sampleHandler emptyWorld).1 1 rfl,
   (stopReqSpan_finishes_owned_span_only sampleTracer emptyHandler emptyWorld).2.1 rfl,
   (stopReqSpan_finishes_owned_span_only sampleTracer emptyHandler emptyWorld).2.2
     [.stopReqSpan, .flushTracer] emptyHandler (emptyWorld.call .Close)
     (by intro reqID; simp) rfl⟩

/-- C2: when `Extract` succeeds with context `c`, `continueReqSpan` leaves the handler
with `reqSpanCtx = c` and no owned request span, whatever the handler held before, and
a following `stopReqSpan` issues no backend call, hence no `Finish`. -/
theorem continueReqSpan_success_drops_owned_span (t : Tracer) (h : traceHandler) (w : World)
    (reqID : String) (header : Header) (c : SpanContext)
    (hx : t.Extract w.calls header = (some c, none)) :
    continueReqSpan t h w reqID header =
      .ok ({ h with reqSpan := none, reqSpanCtx := some c }, w.call (.Extract header)) ∧
    stopReqSpan { h with reqSpan := none, reqSpanCtx := some c } (w.call (.Extract header)) =
      .ok ({ h with reqSpan := none, reqSpanCtx := some c }, w.call (.Extract header)) := by
  constructor
  · simp [continueReqSpan, hx]
  · simp [stopReqSpan]

/-- Witness for C2: the sample handler, which owns request span 1, continued from a
carrier that holds a trace id. -/
theorem continueReqSpan_success_drops_owned_span_witness :
    continueReqSpan sampleTracer sampleHandler emptyWorld "R1" [("Uber-Trace-Id", ["x"])] =
      .ok ({ sampleHandler with reqSpan := none, reqSpanCtx := some (.remote 7) },
        emptyWorld.call (.Extract [("Uber-Trace-Id", ["x"])])) ∧
    stopReqSpan { sampleHandler with reqSpan := none, reqSpanCtx := some (.remote 7) }
        (emptyWorld.call (.Extract [("Uber-Trace-Id", ["x"])])) =
      .ok ({ sampleHandler with reqSpan := none, reqSpanCtx := some (.remote 7) },
        emptyWorld.call (.Extract [("Uber-Trace-Id", ["x"])])) :=
  continueReqSpan_success_drops_owned_span sampleTracer sampleHandler emptyWorld "R1"
    [("Uber-Trace-Id", ["x"])] (.remote 7) rfl

/-- C3, as stated, fails: on the sample handler, which owns request span 1, an
`Extract` that answers an error and no context leaves the owned span in place. -/
theorem continueReqSpan_error_keeps_owned_span :
    (sampleTracer.Extract emptyWorld.calls []).1 = none ∧
    (sampleTracer.Extract emptyWorld.calls []).2 ≠ none ∧
    ∃ h1 w1, continueReqSpan sampleTracer sampleHandler emptyWorld "R1" [] = .ok (h1, w1) ∧
      h1.reqSpan = some 1 :=
  ⟨rfl, by decide, _, _, rfl, rfl⟩

/-- C3, amended: when `Extract` answers an error and no context, `continueReqSpan`
returns normally, prints the error, and leaves `reqSpanCtx` absent and `reqSpan`,
`nodeSpans` and `operationSpans` as they were; so no owned request span is held
afterwards when none was held before. -/
theorem continueReqSpan_error_leaves_context_unset (t : Tracer) (h : traceHandler) (w : World)
    (reqID : String) (header : Header) (err : String)
    (hx : t.Extract w.calls header = (none, some err)) :
    (∃ w1, continueReqSpan t h w reqID header = .ok ({ h with reqSpanCtx := none }, w1) ∧
      w1.calls = w.calls ++ [.Extract header] ∧
      w1.stdout = w.stdout ++ ["[Request " ++ reqID ++
        "] failed to continue req span for tracing, error " ++ err ++ "\n"]) ∧
    (h.reqSpan = none → ∃ h1 w1, continueReqSpan t h w reqID header = .ok (h1, w1) ∧
      h1.reqSpan = none ∧ h1.reqSpanCtx = none) := by
  have key : continueReqSpan t h w reqID header =
      .ok ({ h with reqSpanCtx := none }, (w.call (.Extract header)).print ("[Request " ++ reqID ++
        "] failed to continue req span for tracing, error " ++ err ++ "\n")) := by
    simp only [continueReqSpan, hx]
  exact ⟨⟨_, key, rfl, rfl⟩, fun hn => ⟨_, _, key, hn, rfl⟩⟩

/-- Witness for C3 amended: the empty handler continued from a carrier without a
trace id. -/
theorem continueReqSpan_error_leaves_context_unset_witness :
    (∃ w1, continueReqSpan sampleTracer emptyHandler emptyWorld "R1" [] =
        .ok ({ emptyHandler with reqSpanCtx := none }, w1) ∧
      w1.calls = emptyWorld.calls ++ [.Extract []] ∧
      w1.stdout = emptyWorld.stdout ++ ["[Request " ++ "R1" ++
        "] failed to continue req span for tracing, error " ++
        "opentracing: SpanContext not found in Extract carrier" ++ "\n"]) ∧
    (emptyHandler.reqSpan = none →
      ∃ h1 w1, continueReqSpan sampleTracer emptyHandler emptyWorld "R1" [] = .ok (h1, w1) ∧
        h1.reqSpan = none ∧ h1.reqSpanCtx = none) :=
  continueReqSpan_error_leaves_context_unset sampleTracer emptyHandler emptyWorld "R1" []
    "opentracing: SpanContext not found in Extract carrier" rfl

/-! Node and operation level. -/

/-- Reading a key just written gives the value written. -/
theorem mapSet_same {α : Type} (m : String → α) (k : String) (v : α) : mapSet m k v k = v := by
  simp [mapSet]

/-- Reading any other key gives what the map held before the write. -/
theorem mapSet_other {α : Type} (m : String → α) (k k' : String) (v : α) (hk : k' ≠ k) :
    mapSet m k v k' = m k' := by
  simp [mapSet, hk]

/-- A second write under the same key overwrites the first. -/
theorem mapSet_mapSet {α : Type} (m : String → α) (k : String) (v v' : α) :
    mapSet (mapSet m k v) k v' = mapSet m k v' := by
  funext k'
  by_cases hk : k' = k <;> simp [mapSet, hk]

/-- What `startNodeSpan` does when the node map is made and the backend answers span `s`. -/
theorem startNodeSpan_ok (t : Tracer) (h : traceHandler) (w : World) (node reqID : String)
    (m : SpanMap) (s : Span) (hm : h.nodeSpans = some m)
    (hs : t.StartSpan w.calls node [.RPCServerOption h.reqSpanCtx] = some s) :
    startNodeSpan t h w node reqID =
      .ok ({ h with nodeSpans := some (mapSet m node (some s)) },
        { calls := w.calls ++ [.StartSpan node [.RPCServerOption h.reqSpanCtx],
            .SetTag s "async" "true", .SetTag s "request" reqID, .SetTag s "node" node],
          stdout := w.stdout }) := by
  simp [startNodeSpan, hm, hs, setTag, traceHandler.nodeSpan, spanAt, mapSet_same, World.call]

/-- What `startOperationSpan` does when the node holds span `s`, the operation map is
made, its entry for the node is not a nil map, and the backend answers span `so`. -/
theorem startOperationSpan_ok (t : Tracer) (h : traceHandler) (w : World)
    (node reqID operationID : String) (outer : String → Option (Option SpanMap))
    (s so : Span) (hn : h.nodeSpan node = some s) (ho : h.operationSpans = some outer)
    (hi : outer node ≠ some none)
    (hs : t.StartSpan w.calls operationID [.ChildOf (.ofSpan s)] = some so) :
    ∃ h1, startOperationSpan t h w node reqID operationID =
        .ok (h1,
          { calls := w.calls ++ [.StartSpan operationID [.ChildOf (.ofSpan s)],
              .SetTag so "request" reqID, .SetTag so "node" node,
              .SetTag so "operation" operationID],
            stdout := w.stdout }) ∧
      h1.operationSpan node operationID = some so ∧
      (∀ n o, ¬ (n = node ∧ o = operationID) → h1.operationSpan n o = h.operationSpan n o) ∧
      (∀ n, n ≠ node → opMapAt h1.operationSpans n = opMapAt h.operationSpans n) ∧
      h1.nodeSpans = h.nodeSpans ∧ h1.reqSpan = h.reqSpan ∧ h1.reqSpanCtx = h.reqSpanCtx := by
  cases hon : outer node with
  | none =>
    refine ⟨{ h with operationSpans := some (mapSet outer node
      (some (some (mapSet (fun _ => none) operationID (some so))))) }, ?_, ?_, ?_, ?_, rfl, rfl, rfl⟩
    · simp [startOperationSpan, hn, ensureOperationMap, opMapAt, ho, hon,
        hs, setTag, traceHandler.operationSpan, spanAt, mapSet_same, World.call, mapSet_mapSet]
    · simp [traceHandler.operationSpan, opMapAt, spanAt, mapSet_same]
    · intro n o hno
      by_cases hnn : n = node
      · subst hnn
        have hoo : o ≠ operationID := fun hc => hno ⟨rfl, hc⟩
        simp [traceHandler.operationSpan, opMapAt, ho, hon, spanAt, mapSet_same,
          mapSet_other _ _ _ _ hoo]
      · simp [traceHandler.operationSpan, opMapAt, ho, mapSet_other _ _ _ _ hnn]
    · intro n hne
      simp [opMapAt, ho, mapSet_other _ _ _ _ hne]
  | some inner =>
    cases inner with
    | none => exact absurd hon hi
    | some m =>
      refine ⟨{ h with operationSpans := some (mapSet outer node
        (some (some (mapSet m operationID (some so))))) }, ?_, ?_, ?_, ?_, rfl, rfl, rfl⟩
      · simp [startOperationSpan, hn, ensureOperationMap, opMapAt, ho, hon,
          hs, setTag, traceHandler.operationSpan, spanAt, mapSet_same, World.call]
      · simp [traceHandler.operationSpan, opMapAt, spanAt, mapSet_same]
      · intro n o hno
        by_cases hnn : n = node
        · subst hnn
          have hoo : o ≠ operationID := fun hc => hno ⟨rfl, hc⟩
          simp [traceHandler.operationSpan, opMapAt, ho, hon, spanAt, mapSet_same,
            mapSet_other _ _ _ _ hoo]
        · simp [traceHandler.operationSpan, opMapAt, ho, mapSet_other _ _ _ _ hnn]
      · intro n hne
        simp [opMapAt, ho, mapSet_other _ _ _ _ hne]

/-- C4: with both maps made, `startNodeSpan node reqID` asks the backend for exactly
one span, named `node`, whose parent reference is the current `reqSpanCtx` (whichever
way that context was set); the span the backend answers is tagged `async=true`,
`request=reqID`, `node=node` and stored as `nodeSpans[node]`; every other entry of
`nodeSpans`, and `operationSpans`, `reqSpan`, `reqSpanCtx`, are unchanged. -/
theorem startNodeSpan_starts_tagged_child (t : Tracer) (h : traceHandler) (w : World)
    (node reqID : String) (m : SpanMap) (o : String → Option (Option SpanMap)) (s : Span)
    (hm : h.nodeSpans = some m) (ho : h.operationSpans = some o)
    (hs : t.StartSpan w.calls node [.RPCServerOption h.reqSpanCtx] = some s) :
    ∃ h1 w1, startNodeSpan t h w node reqID = .ok (h1, w1) ∧
      w1.calls = w.calls ++ [.StartSpan node [.RPCServerOption h.reqSpanCtx],
        .SetTag s "async" "true", .SetTag s "request" reqID, .SetTag s "node" node] ∧
      parentOf [.RPCServerOption h.reqSpanCtx] = h.reqSpanCtx ∧
      h1.nodeSpan node = some s ∧
      (∀ n, n ≠ node → h1.nodeSpan n = h.nodeSpan n) ∧
      h1.operationSpans = some o ∧ h1.reqSpan = h.reqSpan ∧ h1.reqSpanCtx = h.reqSpanCtx := by
  refine ⟨_, _, startNodeSpan_ok t h w node reqID m s hm hs, rfl, ?_, ?_, ?_, ho, rfl, rfl⟩
  · cases h.reqSpanCtx <;> rfl
  · simp [traceHandler.nodeSpan, spanAt, mapSet_same]
  · intro n hne
    simp [traceHandler.nodeSpan, spanAt, hm, mapSet_other _ _ _ _ hne]

/-- Witness for C4: node `B` started on the sample handler, whose request context is
that of span 1; the sample backend answers span 1. -/
theorem startNodeSpan_starts_tagged_child_witness :
    ∃ h1 w1, startNodeSpan sampleTracer sampleHandler emptyWorld "B" "R1" = .ok (h1, w1) ∧
      w1.calls = [.StartSpan "B" [.RPCServerOption (some (.ofSpan 1))],
        .SetTag 1 "async" "true", .SetTag 1 "request" "R1", .SetTag 1 "node" "B"] ∧
      h1.nodeSpan "B" = some 1 ∧ h1.nodeSpan "A" = some 2 := by
  obtain ⟨h1, w1, hr, hc, -, hb, hf, -⟩ :=
    startNodeSpan_starts_tagged_child sampleTracer sampleHandler emptyWorld "B" "R1"
      (mapSet (fun _ => none) "A" (some 2)) (fun _ => none) 1 rfl rfl rfl
  exact ⟨h1, w1, hr, hc, hb, (hf "A" (by decide)).trans rfl⟩

/-- C5, as stated, fails: a handler can hold a span for node `A` while its operation
map was never made; `startOperationSpan` then faults on the map assignment instead of
storing an operation span. -/
theorem startOperationSpan_nil_operation_map_faults :
    nilOperationMapHandler.nodeSpan "A" = some 2 ∧
    startOperationSpan sampleTracer nilOperationMapHandler emptyWorld "A" "R1" "op1" =
      .error .nilMapAssignment :=
  ⟨rfl, rfl⟩

/-- C5, amended: when `nodeSpans[node]` holds a span `s`, the operation map is made and
its entry for `node`, if there is one, is not a nil map, `startOperationSpan` asks the
backend for exactly one span, named `operationID`, as a child of the context of `s`; the
span the backend answers is tagged `request`, `node`, `operation` and stored as
`operationSpans[node][operationID]`; every other operation entry, `nodeSpans`, `reqSpan`
and `reqSpanCtx` are unchanged. In particular `startNodeSpan` followed by
`startOperationSpan` on the same node, from a handler with both maps made, yields an
operation span whose parent is the span of that node. -/
theorem startOperationSpan_starts_child_of_node (t : Tracer) (h : traceHandler) (w : World)
    (node reqID operationID : String) (outer : String → Option (Option SpanMap))
    (s so : Span) (hn : h.nodeSpan node = some s) (ho : h.operationSpans = some outer)
    (hi : outer node ≠ some none)
    (hs : t.StartSpan w.calls operationID [.ChildOf (.ofSpan s)] = some so) :
    (∃ h1 w1, startOperationSpan t h w node reqID operationID = .ok (h1, w1) ∧
      w1.calls = w.calls ++ [.StartSpan operationID [.ChildOf (.ofSpan s)],
        .SetTag so "request" reqID, .SetTag so "node" node,
        .SetTag so "operation" operationID] ∧
      parentOf [.ChildOf (.ofSpan s)] = some (.ofSpan s) ∧
      h1.operationSpan node operationID = some so ∧
      (∀ n o, ¬ (n = node ∧ o = operationID) → h1.operationSpan n o = h.operationSpan n o) ∧
      (∀ n, n ≠ node → opMapAt h1.operationSpans n = opMapAt h.operationSpans n) ∧
      h1.nodeSpans = h.nodeSpans ∧ h1.reqSpan = h.reqSpan ∧ h1.reqSpanCtx = h.reqSpanCtx) ∧
    (∀ (h0 : traceHandler) (w0 : World) (m0 : SpanMap) (so1 : Span),
      h0.nodeSpans = some m0 → h0.operationSpans = some outer →
      t.StartSpan w0.calls node [.RPCServerOption h0.reqSpanCtx] = some s →
      t.StartSpan (w0.calls ++ [.StartSpan node [.RPCServerOption h0.reqSpanCtx],
          .SetTag s "async" "true", .SetTag s "request" reqID, .SetTag s "node" node])
        operationID [.ChildOf (.ofSpan s)] = some so1 →
      ∃ h1 w1 h2 w2, startNodeSpan t h0 w0 node reqID = .ok (h1, w1) ∧
        startOperationSpan t h1 w1 node reqID operationID = .ok (h2, w2) ∧
        w2.calls = w1.calls ++ [.StartSpan operationID [.ChildOf (.ofSpan s)],
          .SetTag so1 "request" reqID, .SetTag so1 "node" node,
          .SetTag so1 "operation" operationID] ∧
        h2.nodeSpan node = some s ∧ h2.operationSpan node operationID = some so1) := by
  constructor
  · obtain ⟨h1, hr, h2, h3, h4, h5, h6, h7⟩ :=
      startOperationSpan_ok t h w node reqID operationID outer s so hn ho hi hs
    exact ⟨h1, _, hr, rfl, rfl, h2, h3, h4, h5, h6, h7⟩
  · intro h0 w0 m0 so1 hm0 ho0 hs0 hs1
    have e1 := startNodeSpan_ok t h0 w0 node reqID m0 s hm0 hs0
    obtain ⟨h2, hr, h2o, -, -, h2n, -, -⟩ :=
      startOperationSpan_ok t { h0 with nodeSpans := some (mapSet m0 node (some s)) }
        { calls := w0.calls ++ [.StartSpan node [.RPCServerOption h0.reqSpanCtx],
            .SetTag s "async" "true", .SetTag s "request" reqID, .SetTag s "node" node],
          stdout := w0.stdout }
        node reqID operationID outer s so1
        (by simp [traceHandler.nodeSpan, spanAt, mapSet_same]) ho0 hi hs1
    refine ⟨_, _, h2, _, e1, hr, rfl, ?_, h2o⟩
    rw [traceHandler.nodeSpan, h2n]
    simp [spanAt, mapSet_same]

/-- Witness for C5 amended: operation `op1` started under node `A` of the sample
handler (node span 2), and node `A` then operation `op1` started on the empty handler. -/
theorem startOperationSpan_starts_child_of_node_witness :
    (∃ h1 w1, startOperationSpan sampleTracer sampleHandler emptyWorld "A" "R1" "op1" =
        .ok (h1, w1) ∧
      w1.calls = [.StartSpan "op1" [.ChildOf (.ofSpan 2)], .SetTag 1 "request" "R1",
        .SetTag 1 "node" "A", .SetTag 1 "operation" "op1"] ∧
      h1.operationSpan "A" "op1" = some 1) ∧
    (∃ h1 w1 h2 w2, startNodeSpan sampleTracer emptyHandler emptyWorld "A" "R1" = .ok (h1, w1) ∧
      startOperationSpan sampleTracer h1 w1 "A" "R1" "op1" = .ok (h2, w2) ∧
      w2.calls = w1.calls ++ [.StartSpan "op1" [.ChildOf (.ofSpan 1)],
        .SetTag 2 "request" "R1", .SetTag 2 "node" "A", .SetTag 2 "operation" "op1"] ∧
      h2.nodeSpan "A" = some 1 ∧ h2.operationSpan "A" "op1" = some 2) := by
  constructor
  · obtain ⟨h1, w1, hr, hc, -, hop, -⟩ :=
      (startOperationSpan_starts_child_of_node sampleTracer sampleHandler emptyWorld
        "A" "R1" "op1" (fun _ => none) 2 1 rfl rfl (by simp) rfl).1
    exact ⟨h1, w1, hr, hc, hop⟩
  · exact (startOperationSpan_starts_child_of_node sampleTracer
        { emptyHandler with nodeSpans := some (mapSet (fun _ => none) "A" (some 1)) } emptyWorld
        "A" "R1" "op1" (fun _ => none) 1 1 rfl rfl (by simp) rfl).2
      emptyHandler emptyWorld (fun _ => none) 2 rfl rfl rfl rfl

/-- C6: when no node span is stored for `node`, `startOperationSpan` returns normally,
makes no backend call, and leaves the handler exactly as it was (no operation map is
made for `node`). -/
theorem startOperationSpan_unknown_node_noop (t : Tracer) (h : traceHandler) (w : World)
    (node reqID operationID : String) (hn : h.nodeSpan node = none) :
    startOperationSpan t h w node reqID operationID = .ok (h, w) := by
  simp [startOperationSpan, hn]

/-- Witness for C6: the empty handler stores no span for node `A`. -/
theorem startOperationSpan_unknown_node_noop_witness :
    emptyHandler.nodeSpan "A" = none ∧
    startOperationSpan sampleTracer emptyHandler emptyWorld "A" "R1" "op1" =
      .ok (emptyHandler, emptyWorld) :=
  ⟨rfl, startOperationSpan_unknown_node_noop sampleTracer emptyHandler emptyWorld
    "A" "R1" "op1" rfl⟩

/-- C7, the code at the failing input: the empty handler stores no span for node `A`,
and `stopNodeSpan` on it raises a nil dereference instead of returning; on the sample
handler, which stores span 2 for node `A`, it issues `Finish` on span 2 and nothing else. -/
theorem stopNodeSpan_unknown_node_faults :
    emptyHandler.nodeSpan "A" = none ∧
    stopNodeSpan emptyHandler emptyWorld "A" = .error .nilDereference ∧
    stopNodeSpan sampleHandler emptyWorld "A" =
      .ok (sampleHandler, emptyWorld.call (.Finish 2)) :=
  ⟨rfl, rfl, rfl⟩

/-- C8, the code at the failing input: the sample handler stores span 2 for node `A`
and no operation span for `op1` of `A`, and `stopOperationSpan` on it raises a nil
dereference instead of returning. -/
theorem stopOperationSpan_unknown_operation_faults :
    sampleHandler.nodeSpan "A" = some 2 ∧
    sampleHandler.operationSpan "A" "op1" = none ∧
    stopOperationSpan sampleHandler emptyWorld "A" "op1" = .error .nilDereference :=
  ⟨rfl, rfl, rfl⟩

/-- C9: when no node span is stored for `node`, `stopOperationSpan` returns normally,
issues no backend call (even if an operation span is stored under the node) and leaves
the handler as it was; when both the node span and the operation span are stored, it
issues `Finish` on exactly `operationSpans[node][operationID]` and nothing else. -/
theorem stopOperationSpan_guarded_by_node_span (h : traceHandler) (w : World)
    (node operationID : String) :
    (h.nodeSpan node = none → stopOperationSpan h w node operationID = .ok (h, w)) ∧
    (∀ sn so, h.nodeSpan node = some sn → h.operationSpan node operationID = some so →
      stopOperationSpan h w node operationID = .ok (h, w.call (.Finish so))) := by
  constructor
  · intro hn
    simp [stopOperationSpan, hn]
  · intro sn so hn hop
    simp [stopOperationSpan, hn, hop, finish]

/-- Witness for C9: a handler that stores operation span 3 under node `A` but no span
for node `A` itself, and the sample handler with both stored. -/
theorem stopOperationSpan_guarded_by_node_span_witness :
    stopOperationSpan { sampleHandlerOp with nodeSpans := some fun _ => none } emptyWorld
        "A" "op1" =
      .ok ({ sampleHandlerOp with nodeSpans := some fun _ => none }, emptyWorld) ∧
    stopOperationSpan sampleHandlerOp emptyWorld "A" "op1" =
      .ok (sampleHandlerOp, emptyWorld.call (.Finish 3)) :=
  ⟨(stopOperationSpan_guarded_by_node_span
      { sampleHandlerOp with nodeSpans := some fun _ => none } emptyWorld "A" "op1").1 rfl,
   (stopOperationSpan_guarded_by_node_span sampleHandlerOp emptyWorld "A" "op1").2 2 3 rfl rfl⟩

/-- C10: when `nodeSpans[lastNode]` holds a span `s`, `extendReqSpan` sets on `s` the
tags of an RPC client with `http.url = url` and `http.method = POST`, then calls
`Inject` exactly once with the context of `s` and the header map of the request; the
header map afterwards is the one `Inject` left. Whether or not `Inject` answers an
error the call returns normally, the handler is unchanged, and no `Finish` is issued. -/
theorem extendReqSpan_injects_node_context (t : Tracer) (h : traceHandler) (w : World)
    (reqID lastNode url : String) (reqHeader : Header) (s : Span)
    (hn : h.nodeSpan lastNode = some s) :
    ∃ w1, extendReqSpan t h w reqID lastNode url reqHeader =
        .ok (h, w1, (t.Inject (w.calls ++ [.SetTag s "span.kind" "client",
          .SetTag s "http.url" url, .SetTag s "http.method" "POST"])
          s (.ofSpan s) reqHeader).1) ∧
      w1.calls = w.calls ++ [.SetTag s "span.kind" "client", .SetTag s "http.url" url,
        .SetTag s "http.method" "POST", .Inject s (.ofSpan s) reqHeader] ∧
      ∀ s1, w1.calls.count (.Finish s1) = w.calls.count (.Finish s1) := by
  simp only [extendReqSpan, hn, extTags, List.foldl, World.call, List.append_assoc,
    List.cons_append, List.nil_append]
  generalize t.Inject (w.calls ++ [.SetTag s "span.kind" "client", .SetTag s "http.url" url,
    .SetTag s "http.method" "POST"]) s (.ofSpan s) reqHeader = r
  refine ⟨_, rfl, ?_⟩
  have hc : ∀ (w3 : World) (line : String), (w3.print line).calls = w3.calls := fun _ _ => rfl
  obtain ⟨hdr, err⟩ := r
  cases err <;> by_cases hg : Header.Get hdr "Uber-Trace-Id" = "" <;>
    simp [hg, hc, List.count_append, List.count_cons]

/-- Witness for C10: the sample handler extends the trace from node `A` (span 2), once
with a backend whose `Inject` writes a trace id and once with one whose `Inject` fails. -/
theorem extendReqSpan_injects_node_context_witness :
    (∃ w1, extendReqSpan sampleTracer sampleHandler emptyWorld "R1" "A" "http://next" [] =
        .ok (sampleHandler, w1, [("Uber-Trace-Id", ["trace"])]) ∧
      w1.calls = [.SetTag 2 "span.kind" "client", .SetTag 2 "http.url" "http://next",
        .SetTag 2 "http.method" "POST", .Inject 2 (.ofSpan 2) []]) ∧
    (∃ w1, extendReqSpan refusingTracer sampleHandler emptyWorld "R1" "A" "http://next" [] =
        .ok (sampleHandler, w1, []) ∧
      w1.calls = [.SetTag 2 "span.kind" "client", .SetTag 2 "http.url" "http://next",
        .SetTag 2 "http.method" "POST", .Inject 2 (.ofSpan 2) []]) := by
  constructor
  · obtain ⟨w1, hr, hc, -⟩ := extendReqSpan_injects_node_context sampleTracer sampleHandler
      emptyWorld "R1" "A" "http://next" [] 2 rfl
    exact ⟨w1, hr, hc⟩
  · obtain ⟨w1, hr, hc, -⟩ := extendReqSpan_injects_node_context refusingTracer sampleHandler
      emptyWorld "R1" "A" "http://next" [] 2 rfl
    exact ⟨w1, hr, hc⟩

/-! Outbound propagation, request start, degraded tracing. -/

/-- What `extendReqSpan` does when the source node holds span `s`: three tags and one
`Inject`, the handler unchanged. -/
theorem extendReqSpan_known (t : Tracer) (h : traceHandler) (w : World)
    (reqID lastNode url : String) (reqHeader : Header) (s : Span)
    (hn : h.nodeSpan lastNode = some s) :
    ∃ w1 hdr, extendReqSpan t h w reqID lastNode url reqHeader = .ok (h, w1, hdr) ∧
      w1.calls = w.calls ++ [.SetTag s "span.kind" "client", .SetTag s "http.url" url,
        .SetTag s "http.method" "POST", .Inject s (.ofSpan s) reqHeader] := by
  simp only [extendReqSpan, hn, extTags, List.foldl, World.call, List.append_assoc,
    List.cons_append, List.nil_append]
  generalize t.Inject (w.calls ++ [.SetTag s "span.kind" "client", .SetTag s "http.url" url,
    .SetTag s "http.method" "POST"]) s (.ofSpan s) reqHeader = r
  refine ⟨_, _, rfl, ?_⟩
  have hc : ∀ (w3 : World) (line : String), (w3.print line).calls = w3.calls := fun _ _ => rfl
  obtain ⟨hdr, err⟩ := r
  cases err <;> by_cases hg : Header.Get hdr "Uber-Trace-Id" = "" <;> simp [hg, hc]

/-- What `startReqSpan` does when the backend answers span `s`. -/
theorem startReqSpan_ok (t : Tracer) (h : traceHandler) (w : World) (reqID : String)
    (s : Span) (hs : t.StartSpan w.calls reqID [] = some s) :
    startReqSpan t h w reqID =
      .ok ({ h with reqSpan := some s, reqSpanCtx := some (.ofSpan s) },
        { calls := w.calls ++ [.StartSpan reqID [], .SetTag s "request" reqID],
          stdout := w.stdout }) := by
  simp [startReqSpan, hs, setTag, World.call]

/-- C11: when no node span is stored for `lastNode`, `extendReqSpan` returns normally,
makes no backend call, prints nothing, leaves the headers of the request exactly as
they were and leaves the handler unchanged. -/
theorem extendReqSpan_unknown_node_noop (t : Tracer) (h : traceHandler) (w : World)
    (reqID lastNode url : String) (reqHeader : Header) (hn : h.nodeSpan lastNode = none) :
    extendReqSpan t h w reqID lastNode url reqHeader = .ok (h, w, reqHeader) := by
  simp [extendReqSpan, hn]

/-- Witness for C11: the sample handler stores no span for node `B`. -/
theorem extendReqSpan_unknown_node_noop_witness :
    sampleHandler.nodeSpan "B" = none ∧
    extendReqSpan sampleTracer sampleHandler emptyWorld "R1" "B" "http://next"
        [("Accept", ["text/plain"])] =
      .ok (sampleHandler, emptyWorld, [("Accept", ["text/plain"])]) :=
  ⟨rfl, extendReqSpan_unknown_node_noop sampleTracer sampleHandler emptyWorld "R1" "B"
    "http://next" [("Accept", ["text/plain"])] rfl⟩

/-- C16: `startReqSpan reqID` asks the backend for exactly one span, named `reqID`, with
no start option and hence no parent; the span the backend answers is tagged
`request=reqID`, stored as the owned request span, and its own context is recorded as
`reqSpanCtx`; `nodeSpans` and `operationSpans` are unchanged; a following `stopReqSpan`
issues exactly one `Finish`, on that span. -/
theorem startReqSpan_starts_owned_root (t : Tracer) (h : traceHandler) (w : World)
    (reqID : String) (s : Span) (hs : t.StartSpan w.calls reqID [] = some s) :
    ∃ h1 w1, startReqSpan t h w reqID = .ok (h1, w1) ∧
      w1.calls = w.calls ++ [.StartSpan reqID [], .SetTag s "request" reqID] ∧
      parentOf [] = none ∧
      h1.reqSpan = some s ∧ h1.reqSpanCtx = some (.ofSpan s) ∧
      h1.nodeSpans = h.nodeSpans ∧ h1.operationSpans = h.operationSpans ∧
      stopReqSpan h1 w1 = .ok (h1, w1.call (.Finish s)) := by
  refine ⟨_, _, startReqSpan_ok t h w reqID s hs, rfl, rfl, rfl, rfl, rfl, rfl, ?_⟩
  simp [stopReqSpan]

/-- Witness for C16: a request started on the empty handler; the sample backend
answers span 1. -/
theorem startReqSpan_starts_owned_root_witness :
    ∃ h1 w1, startReqSpan sampleTracer emptyHandler emptyWorld "R1" = .ok (h1, w1) ∧
      w1.calls = [.StartSpan "R1" [], .SetTag 1 "request" "R1"] ∧
      h1.reqSpan = some 1 ∧ h1.reqSpanCtx = some (.ofSpan 1) ∧
      stopReqSpan h1 w1 = .ok (h1, w1.call (.Finish 1)) := by
  obtain ⟨h1, w1, hr, hc, -, h2, h3, -, -, h4⟩ :=
    startReqSpan_starts_owned_root sampleTracer emptyHandler emptyWorld "R1" 1 rfl
  exact ⟨h1, w1, hr, hc, h2, h3, h4⟩

/-- C17, as stated, fails: the zero-value handler has no request context, and
`startNodeSpan` on it faults on the assignment into the nil node map. -/
theorem startNodeSpan_nil_node_map_faults :
    zeroHandler.reqSpanCtx = none ∧
    startNodeSpan sampleTracer zeroHandler emptyWorld "A" "R1" = .error .nilMapAssignment :=
  ⟨rfl, rfl⟩

/-- C17, amended: when the handler has no request context and both maps are made (the
entry of the operation map for `node`, if any, not a nil map), `startNodeSpan` returns
normally, asks the backend for exactly one span named `node` with no parent, tags the
span the backend answers and stores it as `nodeSpans[node]`; a following
`startOperationSpan` for the node asks for a span that is a child of that root span
and stores the answer. -/
theorem startNodeSpan_without_context_starts_root (t : Tracer) (h : traceHandler) (w : World)
    (node reqID operationID : String) (m : SpanMap)
    (outer : String → Option (Option SpanMap)) (s so : Span)
    (hc : h.reqSpanCtx = none) (hm : h.nodeSpans = some m)
    (ho : h.operationSpans = some outer) (hi : outer node ≠ some none)
    (hs : t.StartSpan w.calls node [.RPCServerOption none] = some s)
    (hso : t.StartSpan (w.calls ++ [.StartSpan node [.RPCServerOption none],
        .SetTag s "async" "true", .SetTag s "request" reqID, .SetTag s "node" node])
      operationID [.ChildOf (.ofSpan s)] = some so) :
    ∃ h1 w1 h2 w2, startNodeSpan t h w node reqID = .ok (h1, w1) ∧
      w1.calls = w.calls ++ [.StartSpan node [.RPCServerOption none],
        .SetTag s "async" "true", .SetTag s "request" reqID, .SetTag s "node" node] ∧
      parentOf [.RPCServerOption none] = none ∧
      h1.nodeSpan node = some s ∧
      startOperationSpan t h1 w1 node reqID operationID = .ok (h2, w2) ∧
      w2.calls = w1.calls ++ [.StartSpan operationID [.ChildOf (.ofSpan s)],
        .SetTag so "request" reqID, .SetTag so "node" node,
        .SetTag so "operation" operationID] ∧
      parentOf [.ChildOf (.ofSpan s)] = some (.ofSpan s) ∧
      h2.nodeSpan node = some s ∧ h2.operationSpan node operationID = some so := by
  obtain ⟨rs, rc, ns, os⟩ := h
  simp only at hc hm ho
  subst hc hm ho
  have e1 := startNodeSpan_ok t ⟨rs, none, some m, some outer⟩ w node reqID m s rfl hs
  have hn1 : traceHandler.nodeSpan ⟨rs, none, some (mapSet m node (some s)), some outer⟩ node
      = some s := by
    simp [traceHandler.nodeSpan, spanAt, mapSet_same]
  obtain ⟨h2, hr, h2o, -, -, h2n, -, -⟩ :=
    startOperationSpan_ok t ⟨rs, none, some (mapSet m node (some s)), some outer⟩
      { calls := w.calls ++ [.StartSpan node [.RPCServerOption none],
          .SetTag s "async" "true", .SetTag s "request" reqID, .SetTag s "node" node],
        stdout := w.stdout }
      node reqID operationID outer s so hn1 rfl hi hso
  refine ⟨_, _, h2, _, e1, rfl, rfl, hn1, hr, rfl, rfl, ?_, h2o⟩
  rw [traceHandler.nodeSpan, h2n]
  exact hn1

/-- Witness for C17 amended: the empty handler, whose request context is absent as it
is after a failed `continueReqSpan`, starts node `A` and then operation `op1`. -/
theorem startNodeSpan_without_context_starts_root_witness :
    (∃ w0, continueReqSpan refusingTracer emptyHandler emptyWorld "R1" [] =
      .ok (emptyHandler, w0)) ∧
    ∃ h1 w1 h2 w2, startNodeSpan sampleTracer emptyHandler emptyWorld "A" "R1" = .ok (h1, w1) ∧
      w1.calls = [.StartSpan "A" [.RPCServerOption none],
        .SetTag 1 "async" "true", .SetTag 1 "request" "R1", .SetTag 1 "node" "A"] ∧
      h1.nodeSpan "A" = some 1 ∧
      startOperationSpan sampleTracer h1 w1 "A" "R1" "op1" = .ok (h2, w2) ∧
      w2.calls = w1.calls ++ [.StartSpan "op1" [.ChildOf (.ofSpan 1)],
        .SetTag 2 "request" "R1", .SetTag 2 "node" "A", .SetTag 2 "operation" "op1"] ∧
      h2.operationSpan "A" "op1" = some 2 := by
  refine ⟨⟨_, rfl⟩, ?_⟩
  obtain ⟨h1, w1, h2, w2, a, b, -, c, d, e, -, -, f⟩ :=
    startNodeSpan_without_context_starts_root sampleTracer emptyHandler emptyWorld
      "A" "R1" "op1" (fun _ => none) (fun _ => none) 1 2 rfl rfl rfl (by simp) rfl rfl
  exact ⟨h1, w1, h2, w2, a, b, c, d, e, f⟩

/-! Inversion: what a normal return tells about the state before. -/

/-- If `startReqSpan` returns normally, the backend answered a span. -/
theorem startReqSpan_inv (t : Tracer) (h h1 : traceHandler) (w w1 : World) (reqID : String)
    (hr : startReqSpan t h w reqID = .ok (h1, w1)) :
    ∃ s, t.StartSpan w.calls reqID [] = some s := by
  cases hs : t.StartSpan w.calls reqID [] with
  | none => simp [startReqSpan, hs, setTag] at hr
  | some s => exact ⟨s, rfl⟩

/-- If `startNodeSpan` returns normally, the node map was made and the backend
answered a span. -/
theorem startNodeSpan_inv (t : Tracer) (h h1 : traceHandler) (w w1 : World)
    (node reqID : String) (hr : startNodeSpan t h w node reqID = .ok (h1, w1)) :
    ∃ m s, h.nodeSpans = some m ∧
      t.StartSpan w.calls node [.RPCServerOption h.reqSpanCtx] = some s := by
  cases hm : h.nodeSpans with
  | none => simp [startNodeSpan, hm] at hr
  | some m =>
    cases hs : t.StartSpan w.calls node [.RPCServerOption h.reqSpanCtx] with
    | none =>
      simp [startNodeSpan, hm, hs, setTag, traceHandler.nodeSpan, spanAt, mapSet_same] at hr
    | some s => exact ⟨m, s, rfl, rfl⟩

/-- If `startOperationSpan` returns normally on a node that holds a span, the
operation map was made, its entry for the node is not a nil map, and the backend
answered a span. -/
theorem startOperationSpan_inv (t : Tracer) (h h1 : traceHandler) (w w1 : World)
    (node reqID operationID : String) (sn : Span) (hn : h.nodeSpan node = some sn)
    (hr : startOperationSpan t h w node reqID operationID = .ok (h1, w1)) :
    ∃ outer so, h.operationSpans = some outer ∧ outer node ≠ some none ∧
      t.StartSpan w.calls operationID [.ChildOf (.ofSpan sn)] = some so := by
  cases ho : h.operationSpans with
  | none => simp [startOperationSpan, hn, ensureOperationMap, opMapAt, ho] at hr
  | some outer =>
    cases hon : outer node with
    | none =>
      cases hs : t.StartSpan w.calls operationID [.ChildOf (.ofSpan sn)] with
      | none =>
        simp [startOperationSpan, hn, ensureOperationMap, opMapAt, ho, hon, hs, setTag,
          traceHandler.operationSpan, spanAt, mapSet_same] at hr
      | some so => exact ⟨outer, so, rfl, by simp [hon], rfl⟩
    | some inner =>
      cases inner with
      | none => simp [startOperationSpan, hn, ensureOperationMap, opMapAt, ho, hon] at hr
      | some m =>
        cases hs : t.StartSpan w.calls operationID [.ChildOf (.ofSpan sn)] with
        | none =>
          simp [startOperationSpan, hn, ensureOperationMap, opMapAt, ho, hon, hs, setTag,
            traceHandler.operationSpan, spanAt, mapSet_same] at hr
        | some so => exact ⟨outer, so, rfl, by simp [hon], rfl⟩

/-! The effect of each operation. -/

/-- Effect of `startReqSpan`. -/
theorem startReqSpan_effect (t : Tracer) (h h1 : traceHandler) (w w1 : World) (reqID : String)
    (hr : startReqSpan t h w reqID = .ok (h1, w1)) :
    Effect t h w h1 w1 (.startReqSpan reqID) := by
  obtain ⟨s, hs⟩ := startReqSpan_inv t h h1 w w1 reqID hr
  rw [startReqSpan_ok t h w reqID s hs] at hr
  simp only [Except.ok.injEq, Prod.mk.injEq] at hr
  obtain ⟨rfl, rfl⟩ := hr
  refine .start .req reqID [] s [.SetTag s "request" reqID] rfl rfl hs rfl ?_ rfl ?_ ?_ ?_ ?_
  · intro c hc
    simp only [List.mem_singleton] at hc
    exact ⟨_, _, hc⟩
  · intro K' hK'
    cases K' with
    | req => exact absurd rfl hK'
    | node n => rfl
    | operation n o => rfl
  · intro n o hno
    cases hno
  · simp
  · intro c hc
    cases hc

/-- Effect of `startNodeSpan`. -/
theorem startNodeSpan_effect (t : Tracer) (h h1 : traceHandler) (w w1 : World)
    (node reqID : String) (hr : startNodeSpan t h w node reqID = .ok (h1, w1)) :
    Effect t h w h1 w1 (.startNodeSpan node reqID) := by
  obtain ⟨m, s, hm, hs⟩ := startNodeSpan_inv t h h1 w w1 node reqID hr
  rw [startNodeSpan_ok t h w node reqID m s hm hs] at hr
  simp only [Except.ok.injEq, Prod.mk.injEq] at hr
  obtain ⟨rfl, rfl⟩ := hr
  refine .start (.node node) node [.RPCServerOption h.reqSpanCtx] s
    [.SetTag s "async" "true", .SetTag s "request" reqID, .SetTag s "node" node]
    rfl rfl hs rfl ?_ ?_ ?_ ?_ ?_ ?_
  · intro c hc
    simp only [List.mem_cons, List.mem_singleton, List.not_mem_nil, or_false] at hc
    rcases hc with hc | hc | hc <;> exact ⟨_, _, hc⟩
  · simp [traceHandler.stored, traceHandler.nodeSpan, spanAt, mapSet_same]
  · intro K' hK'
    cases K' with
    | req => rfl
    | node n =>
      have hne : n ≠ node := fun hc => hK' (by rw [hc])
      simp [traceHandler.stored, traceHandler.nodeSpan, spanAt, hm, mapSet_other _ _ _ _ hne]
    | operation n o => rfl
  · intro n o hno
    cases hno
  · simp
  · intro c hc
    simp only [List.cons.injEq, StartSpanOption.RPCServerOption.injEq, and_true] at hc
    exact ⟨⟨node, rfl⟩, hc.symm⟩

/-- An operation that changes nothing and issues no call has the quiet effect. -/
theorem Effect.noop (t : Tracer) (h : traceHandler) (w : World) (op : Op)
    (hop : op.starts = none ∨ ∃ n r o, op = .startOperationSpan n r o ∧ h.nodeSpan n = none) :
    Effect t h w h w op :=
  .quiet [] hop (by simp) (by simp) (by simp) (fun _ _ => rfl) (Or.inl ⟨rfl, rfl⟩)

/-- Effect of `startOperationSpan`. -/
theorem startOperationSpan_effect (t : Tracer) (h h1 : traceHandler) (w w1 : World)
    (node reqID operationID : String)
    (hr : startOperationSpan t h w node reqID operationID = .ok (h1, w1)) :
    Effect t h w h1 w1 (.startOperationSpan node reqID operationID) := by
  cases hn : h.nodeSpan node with
  | none =>
    simp only [startOperationSpan, hn, Except.ok.injEq, Prod.mk.injEq] at hr
    obtain ⟨rfl, rfl⟩ := hr
    exact Effect.noop t h w _ (Or.inr ⟨_, _, _, rfl, hn⟩)
  | some sn =>
    obtain ⟨outer, so, ho, hi, hs⟩ :=
      startOperationSpan_inv t h h1 w w1 node reqID operationID sn hn hr
    obtain ⟨h2, hr2, hop, hfr, -, hns, hrs, hrc⟩ :=
      startOperationSpan_ok t h w node reqID operationID outer sn so hn ho hi hs
    rw [hr2] at hr
    simp only [Except.ok.injEq, Prod.mk.injEq] at hr
    obtain ⟨rfl, rfl⟩ := hr
    refine .start (.operation node operationID) operationID [.ChildOf (.ofSpan sn)] so
      [.SetTag so "request" reqID, .SetTag so "node" node, .SetTag so "operation" operationID]
      rfl rfl hs rfl ?_ hop ?_ ?_ ?_ ?_
    · intro c hc
      simp only [List.mem_cons, List.mem_singleton, List.not_mem_nil, or_false] at hc
      rcases hc with hc | hc | hc <;> exact ⟨_, _, hc⟩
    · intro K' hK'
      cases K' with
      | req => exact hrs
      | node n => simp [traceHandler.stored, traceHandler.nodeSpan, hns]
      | operation n o =>
        exact hfr n o (fun hc => hK' (by rw [hc.1, hc.2]))
    · intro n o hno
      simp only [Key.operation.injEq] at hno
      exact ⟨sn, by rw [← hno.1]; exact hn⟩
    · simpa using hrc
    · intro c hc
      simp at hc

/-- Effect of `stopReqSpan`. -/
theorem stopReqSpan_effect (t : Tracer) (h h1 : traceHandler) (w w1 : World)
    (hr : stopReqSpan h w = .ok (h1, w1)) : Effect t h w h1 w1 .stopReqSpan := by
  cases hs : h.reqSpan with
  | none =>
    simp only [stopReqSpan, hs, Except.ok.injEq, Prod.mk.injEq] at hr
    obtain ⟨rfl, rfl⟩ := hr
    exact Effect.noop t h w _ (Or.inl rfl)
  | some s =>
    simp only [stopReqSpan, hs, Except.ok.injEq, Prod.mk.injEq] at hr
    obtain ⟨rfl, rfl⟩ := hr
    exact .stop .req s rfl hs rfl rfl

/-- Effect of `stopNodeSpan`. -/
theorem stopNodeSpan_effect (t : Tracer) (h h1 : traceHandler) (w w1 : World) (node : String)
    (hr : stopNodeSpan h w node = .ok (h1, w1)) : Effect t h w h1 w1 (.stopNodeSpan node) := by
  cases hs : h.nodeSpan node with
  | none => simp [stopNodeSpan, hs, finish] at hr
  | some s =>
    simp only [stopNodeSpan, hs, finish, Except.ok.injEq, Prod.mk.injEq] at hr
    obtain ⟨rfl, rfl⟩ := hr
    exact .stop (.node node) s rfl hs rfl rfl

/-- Effect of `stopOperationSpan`. -/
theorem stopOperationSpan_effect (t : Tracer) (h h1 : traceHandler) (w w1 : World)
    (node operationID : String) (hr : stopOperationSpan h w node operationID = .ok (h1, w1)) :
    Effect t h w h1 w1 (.stopOperationSpan node operationID) := by
  cases hn : h.nodeSpan node with
  | none =>
    simp only [stopOperationSpan, hn, Except.ok.injEq, Prod.mk.injEq] at hr
    obtain ⟨rfl, rfl⟩ := hr
    exact Effect.noop t h w _ (Or.inl rfl)
  | some sn =>
    cases hs : h.operationSpan node operationID with
    | none => simp [stopOperationSpan, hn, hs, finish] at hr
    | some s =>
      simp only [stopOperationSpan, hn, hs, finish, Except.ok.injEq, Prod.mk.injEq] at hr
      obtain ⟨rfl, rfl⟩ := hr
      exact .stop (.operation node operationID) s rfl hs rfl rfl

/-- Effect of `continueReqSpan`. -/
theorem continueReqSpan_effect (t : Tracer) (h h1 : traceHandler) (w w1 : World)
    (reqID : String) (header : Header)
    (hr : continueReqSpan t h w reqID header = .ok (h1, w1)) :
    Effect t h w h1 w1 (.continueReqSpan reqID header) := by
  cases he : (t.Extract w.calls header).2 with
  | none =>
    simp only [continueReqSpan, he, Except.ok.injEq, Prod.mk.injEq] at hr
    obtain ⟨rfl, rfl⟩ := hr
    refine .quiet [.Extract header] (Or.inl rfl) rfl (by simp) (by simp) ?_
      (Or.inr ⟨⟨_, _, rfl⟩, Or.inr rfl⟩)
    intro K hK
    cases K with
    | req => exact absurd rfl hK
    | node n => rfl
    | operation n o => rfl
  | some err =>
    simp only [continueReqSpan, he, Except.ok.injEq, Prod.mk.injEq] at hr
    obtain ⟨rfl, rfl⟩ := hr
    refine .quiet [.Extract header] (Or.inl rfl) rfl (by simp) (by simp) ?_
      (Or.inr ⟨⟨_, _, rfl⟩, Or.inl rfl⟩)
    intro K hK
    cases K with
    | req => rfl
    | node n => rfl
    | operation n o => rfl

/-- Effect of `extendReqSpan`. -/
theorem extendReqSpan_effect (t : Tracer) (h h1 : traceHandler) (w w1 : World)
    (reqID lastNode url : String) (reqHeader hdr : Header)
    (hr : extendReqSpan t h w reqID lastNode url reqHeader = .ok (h1, w1, hdr)) :
    Effect t h w h1 w1 (.extendReqSpan reqID lastNode url reqHeader) := by
  cases hn : h.nodeSpan lastNode with
  | none =>
    simp only [extendReqSpan, hn, Except.ok.injEq, Prod.mk.injEq] at hr
    obtain ⟨rfl, rfl, -⟩ := hr
    exact Effect.noop t h w _ (Or.inl rfl)
  | some s =>
    obtain ⟨w2, hdr2, hr2, hc⟩ := extendReqSpan_known t h w reqID lastNode url reqHeader s hn
    rw [hr2] at hr
    simp only [Except.ok.injEq, Prod.mk.injEq] at hr
    obtain ⟨rfl, rfl, -⟩ := hr
    exact .quiet _ (Or.inl rfl) hc (by simp) (by simp) (fun _ _ => rfl) (Or.inl ⟨rfl, rfl⟩)

/-- Every operation that returns normally has one of the three effects. -/
theorem step_effect (t : Tracer) (h h1 : traceHandler) (w w1 : World) (op : Op)
    (hr : step t h w op = .ok (h1, w1)) : Effect t h w h1 w1 op := by
  cases op with
  | startReqSpan reqID => exact startReqSpan_effect t h h1 w w1 reqID hr
  | continueReqSpan reqID header => exact continueReqSpan_effect t h h1 w w1 reqID header hr
  | extendReqSpan reqID lastNode url reqHeader =>
    simp only [step] at hr
    split at hr
    · simp at hr
    · rename_i h2 w2 hdr heq
      simp only [Except.ok.injEq, Prod.mk.injEq] at hr
      obtain ⟨rfl, rfl⟩ := hr
      exact extendReqSpan_effect t h h2 w w2 reqID lastNode url reqHeader hdr heq
  | stopReqSpan => exact stopReqSpan_effect t h h1 w w1 hr
  | startNodeSpan node reqID => exact startNodeSpan_effect t h h1 w w1 node reqID hr
  | stopNodeSpan node => exact stopNodeSpan_effect t h h1 w w1 node hr
  | startOperationSpan node reqID operationID =>
    exact startOperationSpan_effect t h h1 w w1 node reqID operationID hr
  | stopOperationSpan node operationID =>
    exact stopOperationSpan_effect t h h1 w w1 node operationID hr
  | flushTracer =>
    simp only [step, flushTracer, Except.ok.injEq, Prod.mk.injEq] at hr
    obtain ⟨rfl, rfl⟩ := hr
    exact .quiet [.Close] (Or.inl rfl) rfl (by simp) (by simp) (fun _ _ => rfl)
      (Or.inl ⟨rfl, rfl⟩)

/-- A property kept by every operation that returns normally is kept by every run
that returns normally. -/
theorem run_invariant (t : Tracer) (P : traceHandler → World → Prop)
    (hstep : ∀ h w op h1 w1, P h w → step t h w op = .ok (h1, w1) → P h1 w1) :
    ∀ (ops : List Op) (h h1 : traceHandler) (w w1 : World),
      P h w → run t h w ops = .ok (h1, w1) → P h1 w1 := by
  intro ops
  induction ops with
  | nil =>
    intro h h1 w w1 hp hr
    simp only [run, Except.ok.injEq, Prod.mk.injEq] at hr
    obtain ⟨rfl, rfl⟩ := hr
    exact hp
  | cons op ops ih =>
    intro h h1 w w1 hp hr
    simp only [run] at hr
    split at hr
    · simp at hr
    · rename_i h2 w2 heq
      exact ih h2 h1 w2 w1 (hstep h w op h2 w2 hp heq) hr

/-! The invariant of handlers driven on a backend that hands out new spans. -/

/-- A span that is not answered again stays so as the log grows. -/
theorem Retired.mono {t : Tracer} {calls : List Call} {s : Span} (hr : Retired t calls s)
    (l : List Call) : Retired t (calls ++ l) s := by
  intro l' n o
  rw [List.append_assoc]
  exact hr (l ++ l') n o

/-- A span that is not answered again is not the answer to the next `StartSpan`. -/
theorem Retired.ne_answer {t : Tracer} {calls : List Call} {s s' : Span}
    (hr : Retired t calls s) {n : String} {o : List StartSpanOption}
    (ha : t.StartSpan calls n o = some s') : s' ≠ s := by
  intro hc
  have := hr [] n o
  rw [List.append_nil, ha, hc] at this
  exact this rfl

/-- The empty handler satisfies the invariant. -/
theorem Inv.empty (t : Tracer) : Inv t emptyHandler emptyWorld where
  storedRetired := by
    intro K s hK
    cases K <;> cases hK
  finishedRetired := by
    intro s hs
    cases hs
  injective := by
    intro K1 K2 s hK
    cases K1 <;> cases hK

/-- Every effect keeps the invariant, on a backend that never hands out a span twice. -/
theorem Inv.effect {t : Tracer} {h h1 : traceHandler} {w w1 : World} {op : Op}
    (hf : Fresh t) (hi : Inv t h w) (he : Effect t h w h1 w1 op) : Inv t h1 w1 := by
  cases he with
  | start K name opts s' tags hK hnostop hans hcalls htags hst hframe hparent hctx hopts =>
    have hnew : Retired t w1.calls s' := by
      rw [hcalls]
      have := (hf w.calls name opts s' hans).mono tags
      simpa [List.append_assoc] using this
    have hfin : ∀ s, Call.Finish s ∈ w1.calls → Call.Finish s ∈ w.calls := by
      intro s hs
      rw [hcalls] at hs
      simp only [List.mem_append, List.mem_cons] at hs
      rcases hs with hs | hs | hs
      · exact hs
      · cases hs
      · obtain ⟨k, v, hkv⟩ := htags _ hs
        cases hkv
    have hold : ∀ K' s, K' ≠ K → h1.stored K' = some s → h.stored K' = some s := by
      intro K' s hne hs
      rw [← hframe K' hne]; exact hs
    refine ⟨?_, ?_, ?_⟩
    · intro K' s hs
      by_cases hKK : K' = K
      · subst hKK
        rw [hst] at hs
        cases hs
        exact hnew
      · rw [hcalls]
        exact (hi.storedRetired K' s (hold K' s hKK hs)).mono _
    · intro s hs
      rw [hcalls]
      exact (hi.finishedRetired s (hfin s hs)).mono _
    · intro K1 K2 s h1s h2s
      by_cases h1K : K1 = K
      · by_cases h2K : K2 = K
        · rw [h1K, h2K]
        · subst h1K
          rw [hst] at h1s
          cases h1s
          exact absurd rfl ((hi.storedRetired K2 _ (hold K2 _ h2K h2s)).ne_answer hans)
      · by_cases h2K : K2 = K
        · subst h2K
          rw [hst] at h2s
          cases h2s
          exact absurd rfl ((hi.storedRetired K1 _ (hold K1 _ h1K h1s)).ne_answer hans)
        · exact hi.injective K1 K2 s (hold K1 s h1K h1s) (hold K2 s h2K h2s)
  | stop K s hstops hst hcalls hh =>
    subst hh
    refine ⟨?_, ?_, hi.injective⟩
    · intro K' s' hs
      rw [hcalls]
      exact (hi.storedRetired K' s' hs).mono _
    · intro s' hs
      rw [hcalls] at hs ⊢
      simp only [List.mem_append, List.mem_singleton] at hs
      rcases hs with hs | hs
      · exact (hi.finishedRetired s' hs).mono _
      · cases hs
        exact (hi.storedRetired K s hst).mono _
  | quiet l hnostart hcalls hnofin hnonew hframe hreq =>
    have hold : ∀ K s, h1.stored K = some s → h.stored K = some s := by
      intro K s hs
      by_cases hK : K = .req
      · subst hK
        have hs1 : h1.reqSpan = some s := hs
        rcases hreq with ⟨-, hq⟩ | ⟨-, hq | hq⟩
        · rw [hq] at hs1; exact hs1
        · rw [hq] at hs1; exact hs1
        · rw [hq] at hs1
          cases hs1
      · rw [← hframe K hK]; exact hs
    refine ⟨?_, ?_, ?_⟩
    · intro K s hs
      rw [hcalls]
      exact (hi.storedRetired K s (hold K s hs)).mono _
    · intro s hs
      rw [hcalls] at hs ⊢
      simp only [List.mem_append] at hs
      rcases hs with hs | hs
      · exact (hi.finishedRetired s hs).mono _
      · exact absurd hs (hnofin s)
    · intro K1 K2 s h1s h2s
      exact hi.injective K1 K2 s (hold K1 s h1s) (hold K2 s h2s)

/-- Every state reached from the empty handler satisfies the invariant, on a backend
that never hands out a span twice. -/
theorem Inv.reachable {t : Tracer} (hf : Fresh t) (ops : List Op) (h : traceHandler)
    (w : World) (hr : run t emptyHandler emptyWorld ops = .ok (h, w)) : Inv t h w :=
  run_invariant t (Inv t)
    (fun _ _ _ _ _ hp hs => Inv.effect hf hp (step_effect t _ _ _ _ _ hs))
    ops emptyHandler h emptyWorld w (Inv.empty t) hr

/-- Appending calls does not lower the count of `StartSpan` calls. -/
theorem startCount_append (l l' : List Call) : startCount (l ++ l') = startCount l + startCount l' := by
  simp [startCount, List.filter_append]

/-- The sample backend never hands out a span twice. -/
theorem sampleTracer_fresh : Fresh sampleTracer := by
  intro l n o s hs l' n' o' hc
  simp only [sampleTracer, Option.some.injEq] at hs hc
  rw [startCount_append, startCount_append] at hc
  have h1 : startCount [Call.StartSpan n o] = 1 := rfl
  have h2 : (startCount l + startCount [Call.StartSpan n o] + startCount l' + 1 : Nat) =
      startCount l + 1 := hc.trans hs.symm
  omega

/-- The sample backend extracts only remote contexts. -/
theorem sampleTracer_remoteExtract : RemoteExtract sampleTracer := by
  intro l hdr s
  simp only [sampleTracer]
  split <;> simp

/-! End to end. -/

/-- C12: from the empty handler, on a backend that hands out new spans and whose
`Extract` succeeds on the inbound headers, the run continueReqSpan, startNodeSpan,
startOperationSpan, stopOperationSpan, extendReqSpan, stopNodeSpan, flushTracer returns
normally. No request span is owned or finished; exactly two spans are started, the
node span as child of the extracted context and the operation span as child of the
node span, and each receives `Finish` exactly once; `Inject` is called once, with the
context of the node span and the headers of the outbound request; `Close` is called
once, last. -/
theorem end_to_end_continued_request (t : Tracer) (reqID node operationID url : String)
    (headers reqHeader : Header) (c : SpanContext) (sA sO : Span)
    (hf : Fresh t)
    (hx : t.Extract [] headers = (some c, none))
    (hA : t.StartSpan [.Extract headers] node [.RPCServerOption (some c)] = some sA)
    (hO : t.StartSpan [.Extract headers, .StartSpan node [.RPCServerOption (some c)],
        .SetTag sA "async" "true", .SetTag sA "request" reqID, .SetTag sA "node" node]
      operationID [.ChildOf (.ofSpan sA)] = some sO) :
    ∃ h w, run t emptyHandler emptyWorld
        [.continueReqSpan reqID headers, .startNodeSpan node reqID,
         .startOperationSpan node reqID operationID, .stopOperationSpan node operationID,
         .extendReqSpan reqID node url reqHeader, .stopNodeSpan node, .flushTracer] =
        .ok (h, w) ∧
      w.calls = [.Extract headers,
        .StartSpan node [.RPCServerOption (some c)],
        .SetTag sA "async" "true", .SetTag sA "request" reqID, .SetTag sA "node" node,
        .StartSpan operationID [.ChildOf (.ofSpan sA)],
        .SetTag sO "request" reqID, .SetTag sO "node" node,
        .SetTag sO "operation" operationID,
        .Finish sO,
        .SetTag sA "span.kind" "client", .SetTag sA "http.url" url,
        .SetTag sA "http.method" "POST", .Inject sA (.ofSpan sA) reqHeader,
        .Finish sA,
        .Close] ∧
      h.reqSpan = none ∧ sA ≠ sO ∧
      w.calls.count (.Finish sA) = 1 ∧ w.calls.count (.Finish sO) = 1 ∧
      (∀ s, s ≠ sA → s ≠ sO → w.calls.count (.Finish s) = 0) := by
  have hne : sO ≠ sA :=
    ((hf [.Extract headers] node [.RPCServerOption (some c)] sA hA).mono
      [.SetTag sA "async" "true", .SetTag sA "request" reqID, .SetTag sA "node" node]).ne_answer hO
  have e1 : continueReqSpan t emptyHandler emptyWorld reqID headers =
      .ok (⟨none, some c, some fun _ => none, some fun _ => none⟩, ⟨[.Extract headers], []⟩) := by
    simp [continueReqSpan, emptyHandler, emptyWorld, hx, World.call]
  have e2 : startNodeSpan t ⟨none, some c, some fun _ => none, some fun _ => none⟩
      ⟨[.Extract headers], []⟩ node reqID =
      .ok (⟨none, some c, some (mapSet (fun _ => none) node (some sA)), some fun _ => none⟩,
        ⟨[.Extract headers, .StartSpan node [.RPCServerOption (some c)],
          .SetTag sA "async" "true", .SetTag sA "request" reqID, .SetTag sA "node" node], []⟩) :=
    startNodeSpan_ok t ⟨none, some c, some fun _ => none, some fun _ => none⟩
      ⟨[.Extract headers], []⟩ node reqID (fun _ => none) sA rfl hA
  have e3 : startOperationSpan t
      ⟨none, some c, some (mapSet (fun _ => none) node (some sA)), some fun _ => none⟩
      ⟨[.Extract headers, .StartSpan node [.RPCServerOption (some c)],
        .SetTag sA "async" "true", .SetTag sA "request" reqID, .SetTag sA "node" node], []⟩
      node reqID operationID =
      .ok (⟨none, some c, some (mapSet (fun _ => none) node (some sA)),
          some (mapSet (fun _ => none) node
            (some (some (mapSet (fun _ => none) operationID (some sO)))))⟩,
        ⟨[.Extract headers, .StartSpan node [.RPCServerOption (some c)],
          .SetTag sA "async" "true", .SetTag sA "request" reqID, .SetTag sA "node" node,
          .StartSpan operationID [.ChildOf (.ofSpan sA)],
          .SetTag sO "request" reqID, .SetTag sO "node" node,
          .SetTag sO "operation" operationID], []⟩) := by
    simp [startOperationSpan, traceHandler.nodeSpan, ensureOperationMap, opMapAt, hO, setTag,
      traceHandler.operationSpan, spanAt, mapSet_same, World.call, mapSet_mapSet]
  have e4 : stopOperationSpan
      ⟨none, some c, some (mapSet (fun _ => none) node (some sA)),
        some (mapSet (fun _ => none) node
          (some (some (mapSet (fun _ => none) operationID (some sO)))))⟩
      ⟨[.Extract headers, .StartSpan node [.RPCServerOption (some c)],
        .SetTag sA "async" "true", .SetTag sA "request" reqID, .SetTag sA "node" node,
        .StartSpan operationID [.ChildOf (.ofSpan sA)],
        .SetTag sO "request" reqID, .SetTag sO "node" node,
        .SetTag sO "operation" operationID], []⟩ node operationID =
      .ok (⟨none, some c, some (mapSet (fun _ => none) node (some sA)),
          some (mapSet (fun _ => none) node
            (some (some (mapSet (fun _ => none) operationID (some sO)))))⟩,
        ⟨[.Extract headers, .StartSpan node [.RPCServerOption (some c)],
          .SetTag sA "async" "true", .SetTag sA "request" reqID, .SetTag sA "node" node,
          .StartSpan operationID [.ChildOf (.ofSpan sA)],
          .SetTag sO "request" reqID, .SetTag sO "node" node,
          .SetTag sO "operation" operationID, .Finish sO], []⟩) := by
    simp [stopOperationSpan, traceHandler.nodeSpan, opMapAt, finish,
      traceHandler.operationSpan, spanAt, mapSet_same, World.call]
  obtain ⟨w5, hdr, e5, hc5⟩ := extendReqSpan_known t
    ⟨none, some c, some (mapSet (fun _ => none) node (some sA)),
      some (mapSet (fun _ => none) node
        (some (some (mapSet (fun _ => none) operationID (some sO)))))⟩
    ⟨[.Extract headers, .StartSpan node [.RPCServerOption (some c)],
      .SetTag sA "async" "true", .SetTag sA "request" reqID, .SetTag sA "node" node,
      .StartSpan operationID [.ChildOf (.ofSpan sA)],
      .SetTag sO "request" reqID, .SetTag sO "node" node,
      .SetTag sO "operation" operationID, .Finish sO], []⟩
    reqID node url reqHeader sA (by simp [traceHandler.nodeSpan, spanAt, mapSet_same])
  have e6 : stopNodeSpan
      ⟨none, some c, some (mapSet (fun _ => none) node (some sA)),
        some (mapSet (fun _ => none) node
          (some (some (mapSet (fun _ => none) operationID (some sO)))))⟩ w5 node =
      .ok (⟨none, some c, some (mapSet (fun _ => none) node (some sA)),
          some (mapSet (fun _ => none) node
            (some (some (mapSet (fun _ => none) operationID (some sO)))))⟩,
        w5.call (.Finish sA)) := by
    simp [stopNodeSpan, traceHandler.nodeSpan, spanAt, mapSet_same, finish]
  have hcalls : ((w5.call (.Finish sA)).call .Close).calls =
      [.Extract headers, .StartSpan node [.RPCServerOption (some c)],
        .SetTag sA "async" "true", .SetTag sA "request" reqID, .SetTag sA "node" node,
        .StartSpan operationID [.ChildOf (.ofSpan sA)],
        .SetTag sO "request" reqID, .SetTag sO "node" node,
        .SetTag sO "operation" operationID, .Finish sO,
        .SetTag sA "span.kind" "client", .SetTag sA "http.url" url,
        .SetTag sA "http.method" "POST", .Inject sA (.ofSpan sA) reqHeader,
        .Finish sA, .Close] := by
    simp [World.call, hc5]
  refine ⟨⟨none, some c, some (mapSet (fun _ => none) node (some sA)),
      some (mapSet (fun _ => none) node
        (some (some (mapSet (fun _ => none) operationID (some sO)))))⟩,
    (w5.call (.Finish sA)).call .Close, ?_, hcalls, rfl, hne.symm, ?_, ?_, ?_⟩
  · simp only [run, step, e1, e2, e3, e4, e5, e6, flushTracer]
  · rw [hcalls]
    simp [List.count_cons, hne]
  · rw [hcalls]
    simp [List.count_cons, hne.symm]
  · intro s h1 h2
    rw [hcalls]
    simp [List.count_cons, h1.symm, h2.symm]

/-- Witness for C12: the scenario on the sample backend, which extracts the context
`remote 7` and hands out spans 1 and 2. -/
theorem end_to_end_continued_request_witness :
    ∃ h w, run sampleTracer emptyHandler emptyWorld
        [.continueReqSpan "R1" [("Uber-Trace-Id", ["x"])], .startNodeSpan "A" "R1",
         .startOperationSpan "A" "R1" "op1", .stopOperationSpan "A" "op1",
         .extendReqSpan "R1" "A" "http://next" [], .stopNodeSpan "A", .flushTracer] =
        .ok (h, w) ∧
      w.calls = [.Extract [("Uber-Trace-Id", ["x"])],
        .StartSpan "A" [.RPCServerOption (some (.remote 7))],
        .SetTag 1 "async" "true", .SetTag 1 "request" "R1", .SetTag 1 "node" "A",
        .StartSpan "op1" [.ChildOf (.ofSpan 1)],
        .SetTag 2 "request" "R1", .SetTag 2 "node" "A", .SetTag 2 "operation" "op1",
        .Finish 2,
        .SetTag 1 "span.kind" "client", .SetTag 1 "http.url" "http://next",
        .SetTag 1 "http.method" "POST", .Inject 1 (.ofSpan 1) [],
        .Finish 1,
        .Close] ∧
      h.reqSpan = none ∧
      w.calls.count (.Finish 1) = 1 ∧ w.calls.count (.Finish 2) = 1 := by
  obtain ⟨h, w, hr, hc, hq, -, h1, h2, -⟩ :=
    end_to_end_continued_request sampleTracer "R1" "A" "op1" "http://next"
      [("Uber-Trace-Id", ["x"])] [] (.remote 7) 1 2 sampleTracer_fresh rfl rfl rfl
  exact ⟨h, w, hr, hc, hq, h1, h2⟩

/-! Lifetime of stored spans. -/

/-- C14, as stated, fails: after `startNodeSpan` and `stopNodeSpan` for node `A` on the
empty handler, span 1 has received `Finish` and is still stored for `A`. -/
theorem stopNodeSpan_keeps_entry :
    ∃ h w, run sampleTracer emptyHandler emptyWorld
        [.startNodeSpan "A" "R1", .stopNodeSpan "A"] = .ok (h, w) ∧
      h.nodeSpan "A" = some 1 ∧ Call.Finish 1 ∈ w.calls :=
  ⟨_, _, rfl, rfl, by decide⟩

/-- C14, amended: after `startNodeSpan N r` followed by `stopNodeSpan N`, on a handler
whose node map is made, the span the backend answered for `N` has received `Finish`
and is still stored for `N`; so a later `extendReqSpan` from `N` tags that span and
injects its context, a later `stopOperationSpan` for `N` goes past the node guard and
finishes the stored operation span, and a later `startOperationSpan` for `N` that
returns normally stores a span asked for as a child of the finished span. -/
theorem stopNodeSpan_leaves_span_stored (t : Tracer) (h : traceHandler) (w : World)
    (N r : String) (m : SpanMap) (s : Span) (hm : h.nodeSpans = some m)
    (hs : t.StartSpan w.calls N [.RPCServerOption h.reqSpanCtx] = some s) :
    ∃ h1 w1, run t h w [.startNodeSpan N r, .stopNodeSpan N] = .ok (h1, w1) ∧
      w1.calls = w.calls ++ [.StartSpan N [.RPCServerOption h.reqSpanCtx],
        .SetTag s "async" "true", .SetTag s "request" r, .SetTag s "node" N, .Finish s] ∧
      h1.nodeSpan N = some s ∧
      (∀ reqID url reqHeader, ∃ w2 hdr,
        extendReqSpan t h1 w1 reqID N url reqHeader = .ok (h1, w2, hdr) ∧
        w2.calls = w1.calls ++ [.SetTag s "span.kind" "client", .SetTag s "http.url" url,
          .SetTag s "http.method" "POST", .Inject s (.ofSpan s) reqHeader]) ∧
      (∀ op so, h1.operationSpan N op = some so →
        stopOperationSpan h1 w1 N op = .ok (h1, w1.call (.Finish so))) ∧
      (∀ r2 op h2 w2, startOperationSpan t h1 w1 N r2 op = .ok (h2, w2) →
        ∃ so, t.StartSpan w1.calls op [.ChildOf (.ofSpan s)] = some so ∧
          h2.operationSpan N op = some so ∧
          w2.calls = w1.calls ++ [.StartSpan op [.ChildOf (.ofSpan s)],
            .SetTag so "request" r2, .SetTag so "node" N, .SetTag so "operation" op]) := by
  have e1 := startNodeSpan_ok t h w N r m s hm hs
  have hn1 : traceHandler.nodeSpan { h with nodeSpans := some (mapSet m N (some s)) } N
      = some s := by
    simp [traceHandler.nodeSpan, spanAt, mapSet_same]
  refine ⟨{ h with nodeSpans := some (mapSet m N (some s)) },
    { calls := w.calls ++ [.StartSpan N [.RPCServerOption h.reqSpanCtx],
        .SetTag s "async" "true", .SetTag s "request" r, .SetTag s "node" N, .Finish s],
      stdout := w.stdout }, ?_, rfl, hn1, ?_, ?_, ?_⟩
  · simp [run, step, e1, stopNodeSpan, hn1, finish, World.call]
  · intro reqID url reqHeader
    exact extendReqSpan_known t _ _ reqID N url reqHeader s hn1
  · intro op so hop
    simp [stopOperationSpan, hn1, hop, finish]
  · intro r2 op h2 w2 hr
    obtain ⟨outer, so, ho, hi, hso⟩ := startOperationSpan_inv t _ h2 _ w2 N r2 op s hn1 hr
    obtain ⟨h3, hr3, hop, -⟩ := startOperationSpan_ok t _ _ N r2 op outer s so hn1 ho hi hso
    rw [hr3] at hr
    simp only [Except.ok.injEq, Prod.mk.injEq] at hr
    obtain ⟨rfl, rfl⟩ := hr
    exact ⟨so, hso, hop, rfl⟩

/-- Witness for C14 amended: node `A` started and stopped on the empty handler. -/
theorem stopNodeSpan_leaves_span_stored_witness :
    ∃ h1 w1, run sampleTracer emptyHandler emptyWorld
        [.startNodeSpan "A" "R1", .stopNodeSpan "A"] = .ok (h1, w1) ∧
      w1.calls = [.StartSpan "A" [.RPCServerOption none],
        .SetTag 1 "async" "true", .SetTag 1 "request" "R1", .SetTag 1 "node" "A", .Finish 1] ∧
      h1.nodeSpan "A" = some 1 ∧
      ∃ w2 hdr, extendReqSpan sampleTracer h1 w1 "R1" "A" "http://next" [] = .ok (h1, w2, hdr) ∧
        w2.calls = w1.calls ++ [.SetTag 1 "span.kind" "client", .SetTag 1 "http.url" "http://next",
          .SetTag 1 "http.method" "POST", .Inject 1 (.ofSpan 1) []] := by
  obtain ⟨h1, w1, hr, hc, hn, hx, -⟩ :=
    stopNodeSpan_leaves_span_stored sampleTracer emptyHandler emptyWorld "A" "R1"
      (fun _ => none) 1 rfl rfl
  exact ⟨h1, w1, hr, hc, hn, hx "R1" "http://next" []⟩

/-- No effect removes the node span of a node, though a start may replace it. -/
theorem Effect.keeps_nodeSpan {t : Tracer} {h h1 : traceHandler} {w w1 : World} {op : Op}
    (he : Effect t h w h1 w1 op) (n : String) (sn : Span) (hn : h.nodeSpan n = some sn) :
    ∃ sn1, h1.nodeSpan n = some sn1 := by
  cases he with
  | start K name opts s' tags hK hnostop hans hcalls htags hst hframe hparent hctx hopts =>
    by_cases hKn : Key.node n = K
    · subst hKn
      exact ⟨s', hst⟩
    · exact ⟨sn, (hframe (.node n) hKn).trans hn⟩
  | stop K s hstops hst hcalls hh =>
    subst hh
    exact ⟨sn, hn⟩
  | quiet l hnostart hcalls hnofin hnonew hframe hreq =>
    exact ⟨sn, (hframe (.node n) (by simp)).trans hn⟩

/-- Every effect keeps the property that a stored operation span has a stored node span. -/
theorem Effect.keeps_parent {t : Tracer} {h h1 : traceHandler} {w w1 : World} {op : Op}
    (he : Effect t h w h1 w1 op)
    (hp : ∀ n o s, h.operationSpan n o = some s → ∃ sn, h.nodeSpan n = some sn) :
    ∀ n o s, h1.operationSpan n o = some s → ∃ sn, h1.nodeSpan n = some sn := by
  intro n o s hs
  have hnode : ∃ sn, h.nodeSpan n = some sn := by
    cases he with
    | start K name opts s' tags hK hnostop hans hcalls htags hst hframe hparent hctx hopts =>
      by_cases hKo : Key.operation n o = K
      · exact hparent n o hKo.symm
      · exact hp n o s ((hframe (.operation n o) hKo).symm.trans hs)
    | stop K s1 hstops hst hcalls hh =>
      subst hh
      exact hp n o s hs
    | quiet l hnostart hcalls hnofin hnonew hframe hreq =>
      exact hp n o s ((hframe (.operation n o) (by simp)).symm.trans hs)
  obtain ⟨sn, hsn⟩ := hnode
  exact he.keeps_nodeSpan n sn hsn

/-- C19: in every state reached from the empty handler by a run that returns normally,
whatever the backend answers, every stored operation span has a stored node span: if
`operationSpans[n][o]` is present then `nodeSpans[n]` is present; and no further run
removes the entry of a node from `nodeSpans`. -/
theorem operation_span_has_node_span (t : Tracer) (ops : List Op) (h : traceHandler)
    (w : World) (hr : run t emptyHandler emptyWorld ops = .ok (h, w)) :
    (∀ n o s, h.operationSpan n o = some s → ∃ sn, h.nodeSpan n = some sn) ∧
    (∀ ops2 h2 w2 n sn, h.nodeSpan n = some sn → run t h w ops2 = .ok (h2, w2) →
      ∃ sn2, h2.nodeSpan n = some sn2) := by
  constructor
  · refine run_invariant t
      (fun h _ => ∀ n o s, h.operationSpan n o = some s → ∃ sn, h.nodeSpan n = some sn)
      (fun _ _ _ _ _ hp hs => (step_effect t _ _ _ _ _ hs).keeps_parent hp)
      ops emptyHandler h emptyWorld w ?_ hr
    intro n o s hs
    cases hs
  · intro ops2 h2 w2 n sn hn hr2
    exact run_invariant t (fun h _ => ∃ sn, h.nodeSpan n = some sn)
      (fun _ _ _ _ _ hp hs => by
        obtain ⟨sn1, hsn1⟩ := hp
        exact (step_effect t _ _ _ _ _ hs).keeps_nodeSpan n sn1 hsn1)
      ops2 h h2 w w2 ⟨sn, hn⟩ hr2

/-- Witness for C19: after node `A` and its operation `op1` were started and node `A`
was stopped, the operation span 2 still has the node span 1 stored, and starting node
`A` again keeps an entry for it. -/
theorem operation_span_has_node_span_witness :
    ∃ h w, run sampleTracer emptyHandler emptyWorld
        [.startNodeSpan "A" "R1", .startOperationSpan "A" "R1" "op1", .stopNodeSpan "A"] =
        .ok (h, w) ∧
      h.operationSpan "A" "op1" = some 2 ∧ (∃ sn, h.nodeSpan "A" = some sn) ∧
      ∃ h2 w2, run sampleTracer h w [.startNodeSpan "A" "R2"] = .ok (h2, w2) ∧
        ∃ sn2, h2.nodeSpan "A" = some sn2 := by
  have hr : run sampleTracer emptyHandler emptyWorld
      [.startNodeSpan "A" "R1", .startOperationSpan "A" "R1" "op1", .stopNodeSpan "A"] =
      .ok (_, _) := rfl
  have hw := operation_span_has_node_span sampleTracer _ _ _ hr
  exact ⟨_, _, hr, rfl, hw.1 "A" "op1" 2 rfl, _, _, rfl,
    hw.2 [.startNodeSpan "A" "R2"] _ _ "A" 1 rfl rfl⟩

/-! Finishing spans once. -/

/-- C13, as stated, fails: after `startReqSpan`, a second `stopReqSpan` issues a second
`Finish` on the same request span, and no step of the run faults. -/
theorem stopReqSpan_twice_finishes_twice :
    ∃ h w, run sampleTracer emptyHandler emptyWorld
        [.startReqSpan "R1", .stopReqSpan, .stopReqSpan] = .ok (h, w) ∧
      w.calls = [.StartSpan "R1" [], .SetTag 1 "request" "R1", .Finish 1, .Finish 1] ∧
      w.calls.count (.Finish 1) = 2 :=
  ⟨_, _, rfl, rfl, by decide⟩

/-! Parent of a node span. -/

/-- C15, as stated, fails: after `startReqSpan` and `stopReqSpan`, `startNodeSpan` asks
the backend for a span whose parent is the context of request span 1, which has
already received `Finish`. -/
theorem startNodeSpan_parents_on_finished_request_span :
    ∃ h w, run sampleTracer emptyHandler emptyWorld
        [.startReqSpan "R1", .stopReqSpan, .startNodeSpan "A" "R1"] = .ok (h, w) ∧
      w.calls = [.StartSpan "R1" [], .SetTag 1 "request" "R1", .Finish 1,
        .StartSpan "A" [.RPCServerOption (some (.ofSpan 1))],
        .SetTag 2 "async" "true", .SetTag 2 "request" "R1", .SetTag 2 "node" "A"] ∧
      parentOf [.RPCServerOption (some (.ofSpan 1))] = some (.ofSpan 1) :=
  ⟨_, _, rfl, rfl, rfl⟩

/-! Spans that are replaced. -/

/-- A span that is stored nowhere and that the backend will not answer again stays
stored nowhere and receives no `Finish`, whatever the operation. -/
theorem Effect.keeps_orphan {t : Tracer} {h h1 : traceHandler} {w w1 : World} {op : Op}
    (he : Effect t h w h1 w1 op) (s : Span) (hns : ∀ K, h.stored K ≠ some s)
    (hret : Retired t w.calls s) :
    (∀ K, h1.stored K ≠ some s) ∧ Retired t w1.calls s ∧
      w1.calls.count (.Finish s) = w.calls.count (.Finish s) := by
  cases he with
  | start K name opts s' tags hK hnostop hans hcalls htags hst hframe hparent hctx hopts =>
    refine ⟨?_, hcalls ▸ hret.mono _, ?_⟩
    · intro K' hK'
      by_cases hKK : K' = K
      · subst hKK
        rw [hst] at hK'
        simp only [Option.some.injEq] at hK'
        exact hret.ne_answer hans hK'
      · exact hns K' ((hframe K' hKK).symm.trans hK')
    · rw [hcalls, List.count_append, List.count_cons]
      have ht : tags.count (.Finish s) = 0 := by
        rw [List.count_eq_zero]
        intro hm
        obtain ⟨k, v, hkv⟩ := htags _ hm
        cases hkv
      simp [ht]
  | stop K s0 hstops hst hcalls hh =>
    subst hh
    refine ⟨hns, hcalls ▸ hret.mono _, ?_⟩
    have hne : s0 ≠ s := fun hc => hns K (hc ▸ hst)
    rw [hcalls, List.count_append]
    have : [Call.Finish s0].count (.Finish s) = 0 := by
      rw [List.count_eq_zero]
      simp [Ne.symm hne]
    rw [this]; rfl
  | quiet l hnostart hcalls hnofin hnonew hframe hreq =>
    refine ⟨?_, hcalls ▸ hret.mono _, ?_⟩
    · intro K hK
      by_cases hKr : K = .req
      · subst hKr
        have hs1 : h1.reqSpan = some s := hK
        rcases hreq with ⟨-, hq⟩ | ⟨-, hq | hq⟩
        · rw [hq] at hs1; exact hns .req hs1
        · rw [hq] at hs1; exact hns .req hs1
        · rw [hq] at hs1
          cases hs1
      · exact hns K ((hframe K hKr).symm.trans hK)
    · rw [hcalls, List.count_append, List.count_eq_zero.mpr (hnofin s)]; rfl

/-- A start operation on the only place that holds span `s`, when the backend will not
answer `s` again and, for the place of an operation, the node holds a span, leaves
`s` stored nowhere and issues no `Finish`. -/
theorem Effect.replaces {t : Tracer} {h h1 : traceHandler} {w w1 : World} {op : Op}
    (he : Effect t h w h1 w1 op) (K : Key) (s : Span)
    (honly : ∀ K', h.stored K' = some s → K' = K) (hret : Retired t w.calls s)
    (hp : ∀ n o, K = .operation n o → ∃ sn, h.nodeSpan n = some sn)
    (hop : op.starts = some K) :
    (∀ K', h1.stored K' ≠ some s) ∧ Retired t w1.calls s ∧
      w1.calls.count (.Finish s) = w.calls.count (.Finish s) := by
  cases he with
  | start K0 name opts s' tags hK hnostop hans hcalls htags hst hframe hparent hctx hopts =>
    have hKK : K0 = K := by
      rw [hK] at hop
      exact Option.some.inj hop
    subst hKK
    refine ⟨?_, hcalls ▸ hret.mono _, ?_⟩
    · intro K' hK'
      by_cases hKK : K' = K0
      · subst hKK
        rw [hst] at hK'
        simp only [Option.some.injEq] at hK'
        exact hret.ne_answer hans hK'
      · exact hKK (honly K' ((hframe K' hKK).symm.trans hK'))
    · rw [hcalls, List.count_append, List.count_cons]
      have ht : tags.count (.Finish s) = 0 := by
        rw [List.count_eq_zero]
        intro hm
        obtain ⟨k, v, hkv⟩ := htags _ hm
        cases hkv
      simp [ht]
  | stop K0 s0 hstops hst hcalls hh =>
    cases op <;> simp [Op.stops, Op.starts] at hstops hop
  | quiet l hnostart hcalls hnofin hnonew hframe hreq =>
    rcases hnostart with hn | ⟨n, r, o, hop2, hn⟩
    · rw [hn] at hop
      cases hop
    · subst hop2
      simp only [Op.starts, Option.some.injEq] at hop
      subst hop
      obtain ⟨sn, hsn⟩ := hp n o rfl
      rw [hn] at hsn
      cases hsn

/-- A span stored nowhere that the backend will not answer again is orphaned. -/
theorem orphaned_of_unstored (t : Tracer) (s : Span) (h1 : traceHandler) (w1 : World)
    (hns : ∀ K, h1.stored K ≠ some s) (hret : Retired t w1.calls s) :
    Orphaned t s w1.calls h1 w1 := by
  refine ⟨hns, ?_⟩
  intro ops h2 w2 hr
  have hq := run_invariant t
    (fun h' w' => (∀ K, h'.stored K ≠ some s) ∧ Retired t w'.calls s ∧
      w'.calls.count (.Finish s) = w1.calls.count (.Finish s))
    (fun h w op h' w' hp hst => by
      obtain ⟨a, b, c⟩ := (step_effect t h h' w w' op hst).keeps_orphan s hp.1 hp.2.1
      exact ⟨a, b, c.trans hp.2.2⟩)
    ops h1 h2 w1 w2 ⟨hns, hret, rfl⟩ hr
  exact ⟨hq.1, hq.2.2⟩

/-- In every state reached from the empty handler, a stored operation span has a
stored node span. -/
theorem reachable_parent (t : Tracer) (ops : List Op) (h : traceHandler) (w : World)
    (hr : run t emptyHandler emptyWorld ops = .ok (h, w)) :
    ∀ n o s, h.operationSpan n o = some s → ∃ sn, h.nodeSpan n = some sn := by
  refine run_invariant t
    (fun h _ => ∀ n o s, h.operationSpan n o = some s → ∃ sn, h.nodeSpan n = some sn)
    (fun _ _ _ _ _ hp hs => (step_effect t _ _ _ _ _ hs).keeps_parent hp)
    ops emptyHandler h emptyWorld w ?_ hr
  intro n o s hs
  cases hs

/-! Finishing spans once: the exact condition. -/

/-- What a stop operation that returns normally does, in a state in which stored
operation spans have stored node spans: the handler is unchanged, and either nothing
is stored at the place and nothing is issued, or one `Finish` is issued on the span
stored at the place. -/
theorem stop_step (t : Tracer) (h h1 : traceHandler) (w w1 : World) (op : Op) (K : Key)
    (hp : ∀ n o s, h.operationSpan n o = some s → ∃ sn, h.nodeSpan n = some sn)
    (hK : op.stops = some K) (hr : step t h w op = .ok (h1, w1)) :
    h1 = h ∧ ((h.stored K = none ∧ w1 = w) ∨
      ∃ s, h.stored K = some s ∧ w1.calls = w.calls ++ [.Finish s]) := by
  cases op <;> simp only [Op.stops, Option.some.injEq] at hK <;> try cases hK
  · cases hs : h.reqSpan with
    | none =>
      simp only [step, stopReqSpan, hs, Except.ok.injEq, Prod.mk.injEq] at hr
      exact ⟨hr.1.symm, Or.inl ⟨hs, hr.2.symm⟩⟩
    | some s =>
      simp only [step, stopReqSpan, hs, Except.ok.injEq, Prod.mk.injEq] at hr
      obtain ⟨rfl, rfl⟩ := hr
      exact ⟨rfl, Or.inr ⟨s, hs, rfl⟩⟩
  · rename_i node
    cases hs : h.nodeSpan node with
    | none => simp [step, stopNodeSpan, hs, finish] at hr
    | some s =>
      simp only [step, stopNodeSpan, hs, finish, Except.ok.injEq, Prod.mk.injEq] at hr
      obtain ⟨rfl, rfl⟩ := hr
      exact ⟨rfl, Or.inr ⟨s, hs, rfl⟩⟩
  · rename_i node operationID
    cases hn : h.nodeSpan node with
    | none =>
      simp only [step, stopOperationSpan, hn, Except.ok.injEq, Prod.mk.injEq] at hr
      refine ⟨hr.1.symm, Or.inl ⟨?_, hr.2.symm⟩⟩
      cases hs : h.operationSpan node operationID with
      | none => exact hs
      | some s =>
        obtain ⟨sn, hsn⟩ := hp node operationID s hs
        rw [hn] at hsn
        cases hsn
    | some sn =>
      cases hs : h.operationSpan node operationID with
      | none => simp [step, stopOperationSpan, hn, hs, finish] at hr
      | some s =>
        simp only [step, stopOperationSpan, hn, hs, finish, Except.ok.injEq,
          Prod.mk.injEq] at hr
        obtain ⟨rfl, rfl⟩ := hr
        exact ⟨rfl, Or.inr ⟨s, hs, rfl⟩⟩

/-- An operation that is not a stop issues no `Finish`. -/
theorem nonstop_count (t : Tracer) (h h1 : traceHandler) (w w1 : World) (op : Op)
    (hK : op.stops = none) (hr : step t h w op = .ok (h1, w1)) (s : Span) :
    w1.calls.count (.Finish s) = w.calls.count (.Finish s) := by
  cases step_effect t h h1 w w1 op hr with
  | start K name opts s' tags hK' hnostop hans hcalls htags hst hframe hparent hctx hopts =>
    rw [hcalls, List.count_append, List.count_cons]
    have ht : tags.count (.Finish s) = 0 := by
      rw [List.count_eq_zero]
      intro hm
      obtain ⟨k, v, hkv⟩ := htags _ hm
      cases hkv
    simp [ht]
  | stop K s0 hstops hst hcalls hh =>
    rw [hK] at hstops
    cases hstops
  | quiet l hnostart hcalls hnofin hnonew hframe hreq =>
    rw [hcalls, List.count_append, List.count_eq_zero.mpr (hnofin s)]; rfl

/-- A run only appends to the call log. -/
theorem run_calls_extend (t : Tracer) (ops : List Op) (h h1 : traceHandler) (w w1 : World)
    (hr : run t h w ops = .ok (h1, w1)) : ∃ l, w1.calls = w.calls ++ l := by
  refine run_invariant t (fun _ w' => ∃ l, w'.calls = w.calls ++ l) ?_ ops h h1 w w1
    ⟨[], by simp⟩ hr
  intro h2 w2 op h3 w3 hp hs
  obtain ⟨l, hl⟩ := hp
  cases step_effect t h2 h3 w2 w3 op hs with
  | start K name opts s' tags hK' hnostop hans hcalls htags hst hframe hparent hctx hopts =>
    exact ⟨l ++ Call.StartSpan name opts :: tags, by rw [hcalls, hl, List.append_assoc]⟩
  | stop K s0 hstops hst hcalls hh =>
    exact ⟨l ++ [Call.Finish s0], by rw [hcalls, hl, List.append_assoc]⟩
  | quiet l' hnostart hcalls hnofin hnonew hframe hreq =>
    exact ⟨l ++ l', by rw [hcalls, hl, List.append_assoc]⟩

/-- From a state in which stored operation spans have stored node spans and no span
has been finished twice: a run that returns normally finishes no span twice exactly
when none of its stop operations is called for a place whose stored span has
already received `Finish`. -/
theorem finish_once_iff_from (t : Tracer) :
    ∀ (ops : List Op) (h h1 : traceHandler) (w w1 : World),
      (∀ n o s, h.operationSpan n o = some s → ∃ sn, h.nodeSpan n = some sn) →
      (∀ s, w.calls.count (.Finish s) ≤ 1) →
      run t h w ops = .ok (h1, w1) →
      ((∀ s, w1.calls.count (.Finish s) ≤ 1) ↔ StopsUnfinished t h w ops) := by
  intro ops
  induction ops with
  | nil =>
    intro h h1 w w1 _ hc hr
    simp only [run, Except.ok.injEq, Prod.mk.injEq] at hr
    obtain ⟨rfl, rfl⟩ := hr
    simp [StopsUnfinished, hc]
  | cons op ops ih =>
    intro h h1 w w1 hp hc hr
    have hr0 := hr
    simp only [run] at hr
    split at hr
    · simp at hr
    · rename_i h2 w2 heq
      have hp2 := (step_effect t h h2 w w2 op heq).keeps_parent hp
      have hunique : ∀ h3 w3, step t h w op = .ok (h3, w3) → h3 = h2 ∧ w3 = w2 := by
        intro h3 w3 h3eq
        rw [heq] at h3eq
        simp only [Except.ok.injEq, Prod.mk.injEq] at h3eq
        exact ⟨h3eq.1.symm, h3eq.2.symm⟩
      have hrest : ∀ P : Prop, (P ↔ StopsUnfinished t h2 w2 ops) →
          (∀ K s, op.stops = some K → h.stored K = some s → Call.Finish s ∉ w.calls) →
          (P ↔ StopsUnfinished t h w (op :: ops)) := by
        intro P hP hfirst
        constructor
        · intro hPp
          refine ⟨hfirst, ?_⟩
          intro h3 w3 h3eq
          obtain ⟨rfl, rfl⟩ := hunique h3 w3 h3eq
          exact hP.mp hPp
        · intro hs
          exact hP.mpr (hs.2 h2 w2 heq)
      cases hK : op.stops with
      | none =>
        have hc2 : ∀ s, w2.calls.count (.Finish s) ≤ 1 := by
          intro s
          rw [nonstop_count t h h2 w w2 op hK heq s]; exact hc s
        refine hrest _ (ih h2 h1 w2 w1 hp2 hc2 hr) ?_
        intro K s hKs
        rw [hK] at hKs
        cases hKs
      | some K =>
        obtain ⟨hh, hcase⟩ := stop_step t h h2 w w2 op K hp hK heq
        rcases hcase with ⟨hnone, hw⟩ | ⟨s, hs, hcalls⟩
        · subst hw
          refine hrest _ (ih h2 h1 _ w1 hp2 hc hr) ?_
          intro K' s hKs hst
          rw [hK] at hKs
          simp only [Option.some.injEq] at hKs
          subst hKs
          rw [hnone] at hst
          cases hst
        · by_cases hfin : Call.Finish s ∈ w.calls
          · constructor
            · intro hall
              exfalso
              obtain ⟨l, hl⟩ := run_calls_extend t ops h2 h1 w2 w1 hr
              have h1c := hall s
              rw [hl, hcalls, List.count_append, List.count_append] at h1c
              have hpos : 0 < w.calls.count (.Finish s) := List.count_pos_iff.mpr hfin
              have hone : [Call.Finish s].count (.Finish s) = 1 := by simp
              omega
            · intro hs2
              exact absurd hfin (hs2.1 K s hK hs)
          · have hc2 : ∀ s', w2.calls.count (.Finish s') ≤ 1 := by
              intro s'
              rw [hcalls, List.count_append]
              by_cases hss : s' = s
              · subst hss
                rw [List.count_eq_zero.mpr hfin]
                simp
              · have : [Call.Finish s].count (.Finish s') = 0 := by
                  rw [List.count_eq_zero]
                  simp [hss]
                rw [this]
                exact hc s'
            refine hrest _ (ih h2 h1 w2 w1 hp2 hc2 hr) ?_
            intro K' s' hKs hst
            rw [hK] at hKs
            simp only [Option.some.injEq] at hKs
            subst hKs
            rw [hs] at hst
            simp only [Option.some.injEq] at hst
            subst hst
            exact hfin

/-- After an operation that stores nothing, what is stored was stored before. -/
theorem stored_of_quiet {t : Tracer} {h h1 : traceHandler}
    (hframe : ∀ K, K ≠ .req → h1.stored K = h.stored K)
    (hreq : (h1.reqSpanCtx = h.reqSpanCtx ∧ h1.reqSpan = h.reqSpan) ∨
      ((∃ l' hdr, h1.reqSpanCtx = (t.Extract l' hdr).1) ∧
        (h1.reqSpan = h.reqSpan ∨ h1.reqSpan = none)))
    (K : Key) (s : Span) (hs : h1.stored K = some s) : h.stored K = some s := by
  by_cases hK : K = .req
  · subst hK
    have hs1 : h1.reqSpan = some s := hs
    rcases hreq with ⟨-, hq⟩ | ⟨-, hq | hq⟩
    · rw [hq] at hs1; exact hs1
    · rw [hq] at hs1; exact hs1
    · rw [hq] at hs1
      cases hs1
  · rw [← hframe K hK]; exact hs

/-- On a backend that never hands out a span twice, a sequence in which no place is
stopped twice without being started again in between calls no stop operation for a
place whose stored span has already received `Finish`. -/
theorem stopsOnce_unfinished (t : Tracer) (hf : Fresh t) :
    ∀ (ops : List Op) (stopped : List Key) (h : traceHandler) (w : World),
      Inv t h w →
      (∀ n o s, h.operationSpan n o = some s → ∃ sn, h.nodeSpan n = some sn) →
      (∀ s K, Call.Finish s ∈ w.calls → h.stored K = some s → K ∈ stopped) →
      stopsOnce stopped ops = true → StopsUnfinished t h w ops := by
  intro ops
  induction ops with
  | nil =>
    intro stopped h w _ _ _ _
    trivial
  | cons op ops ih =>
    intro stopped h w hi hp hd hso
    refine ⟨?_, ?_⟩
    · intro K s hK hs hfin
      have hmem := hd s K hfin hs
      simp [stopsOnce, hK, hmem] at hso
    · intro h1 w1 hst
      have he := step_effect t h h1 w w1 op hst
      have hi1 : Inv t h1 w1 := Inv.effect hf hi he
      have hp1 := he.keeps_parent hp
      cases he with
      | start K name opts s' tags hK hnostop hans hcalls htags hst1 hframe hparent hctx hopts =>
        have hso1 : stopsOnce (stopped.filter (fun K' => K' ≠ K)) ops = true := by
          simpa [stopsOnce, hK, hnostop] using hso
        refine ih _ h1 w1 hi1 hp1 ?_ hso1
        intro s K1 hfin hK1
        have hfin0 : Call.Finish s ∈ w.calls := by
          rw [hcalls] at hfin
          simp only [List.mem_append, List.mem_cons] at hfin
          rcases hfin with hfin | hfin | hfin
          · exact hfin
          · cases hfin
          · obtain ⟨k, v, hkv⟩ := htags _ hfin
            cases hkv
        have hne : K1 ≠ K := by
          intro hKK
          subst hKK
          rw [hst1] at hK1
          simp only [Option.some.injEq] at hK1
          subst hK1
          exact (hi.finishedRetired _ hfin0).ne_answer hans rfl
        rw [hframe K1 hne] at hK1
        simp [List.mem_filter, hd s K1 hfin0 hK1, hne]
      | stop K s0 hstops hst1 hcalls hh =>
        subst hh
        have hso1 : stopsOnce (K :: stopped) ops = true := by
          have := hso
          simp only [stopsOnce, hstops, Bool.and_eq_true] at this
          exact this.2
        refine ih _ h1 w1 hi1 hp1 ?_ hso1
        intro s K1 hfin hK1
        rw [hcalls] at hfin
        simp only [List.mem_append, List.mem_singleton, Call.Finish.injEq] at hfin
        rcases hfin with hfin | hfin
        · exact List.mem_cons_of_mem _ (hd s K1 hfin hK1)
        · subst hfin
          rw [hi.injective K1 K s hK1 hst1]
          exact List.mem_cons_self _ _
      | quiet l hnostart hcalls hnofin hnonew hframe hreq =>
        have hold := fun K s => stored_of_quiet (t := t) hframe hreq K s
        have hfin0 : ∀ s, Call.Finish s ∈ w1.calls → Call.Finish s ∈ w.calls := by
          intro s hfin
          rw [hcalls] at hfin
          simp only [List.mem_append] at hfin
          rcases hfin with hfin | hfin
          · exact hfin
          · exact absurd hfin (hnofin s)
        cases hK : op.stops with
        | some K =>
          have hso1 : stopsOnce (K :: stopped) ops = true := by
            have := hso
            simp only [stopsOnce, hK, Bool.and_eq_true] at this
            exact this.2
          refine ih _ h1 w1 hi1 hp1 ?_ hso1
          intro s K1 hfin hK1
          exact List.mem_cons_of_mem _ (hd s K1 (hfin0 s hfin) (hold K1 s hK1))
        | none =>
          rcases hnostart with hn | ⟨n, r, o, hop, hn⟩
          · have hso1 : stopsOnce stopped ops = true := by
              simpa [stopsOnce, hK, hn] using hso
            refine ih _ h1 w1 hi1 hp1 ?_ hso1
            intro s K1 hfin hK1
            exact hd s K1 (hfin0 s hfin) (hold K1 s hK1)
          · subst hop
            have hso1 : stopsOnce (stopped.filter (fun K' => K' ≠ .operation n o)) ops
                = true := by
              simpa [stopsOnce, Op.stops, Op.starts] using hso
            refine ih _ h1 w1 hi1 hp1 ?_ hso1
            intro s K1 hfin hK1
            have hK0 := hold K1 s hK1
            have hne : K1 ≠ .operation n o := by
              intro hKK
              subst hKK
              obtain ⟨sn, hsn⟩ := hp n o s hK0
              rw [hn] at hsn
              cases hsn
            simp [List.mem_filter, hd s K1 (hfin0 s hfin) hK0, hne]

/-- C13, amended: for every run from the empty handler that returns normally, no span
receives `Finish` more than once if and only if no stop operation of the run is called
for a place (the request, a node, an operation of a node) whose stored span has
already received `Finish`. On a backend that never hands out the same span twice
that is so whenever no place is stopped twice without being started again in
between, so start, stop, start, stop of one node finishes each of its two spans once.
A stop operation does not clear the span it finished: `stopReqSpan`, `stopNodeSpan N`
or `stopOperationSpan N op` called twice in a row issues `Finish` twice on the stored
span. -/
theorem finish_once_iff_no_stop_of_finished_span (t : Tracer) (ops : List Op)
    (h : traceHandler) (w : World)
    (hr : run t emptyHandler emptyWorld ops = .ok (h, w)) :
    ((∀ s, w.calls.count (.Finish s) ≤ 1) ↔ StopsUnfinished t emptyHandler emptyWorld ops) ∧
    (Fresh t → stopsOnce [] ops = true → ∀ s, w.calls.count (.Finish s) ≤ 1) ∧
    (∀ s, h.reqSpan = some s → run t h w [.stopReqSpan, .stopReqSpan] =
      .ok (h, (w.call (.Finish s)).call (.Finish s))) ∧
    (∀ N s, h.nodeSpan N = some s → run t h w [.stopNodeSpan N, .stopNodeSpan N] =
      .ok (h, (w.call (.Finish s)).call (.Finish s))) ∧
    (∀ N op sn s, h.nodeSpan N = some sn → h.operationSpan N op = some s →
      run t h w [.stopOperationSpan N op, .stopOperationSpan N op] =
        .ok (h, (w.call (.Finish s)).call (.Finish s))) := by
  have hp0 : ∀ n o s, emptyHandler.operationSpan n o = some s →
      ∃ sn, emptyHandler.nodeSpan n = some sn := by
    intro n o s hs
    cases hs
  have hc0 : ∀ s, emptyWorld.calls.count (.Finish s) ≤ 1 := by
    intro s
    simp [emptyWorld]
  have hiff := finish_once_iff_from t ops emptyHandler h emptyWorld w hp0 hc0 hr
  refine ⟨hiff, ?_, ?_, ?_, ?_⟩
  · intro hf hso
    refine hiff.mpr (stopsOnce_unfinished t hf ops [] emptyHandler emptyWorld (Inv.empty t)
      hp0 ?_ hso)
    intro s K hs
    cases hs
  · intro s hs
    simp [run, step, stopReqSpan, hs]
  · intro N s hs
    simp [run, step, stopNodeSpan, hs, finish]
  · intro N op sn s hn hs
    simp [run, step, stopOperationSpan, hn, hs, finish]

/-- Witness for C13 amended: node `A` started, stopped, started again and stopped again
on the sample backend; spans 1 and 2 each receive one `Finish`. -/
theorem finish_once_iff_no_stop_of_finished_span_witness :
    ∃ h w, run sampleTracer emptyHandler emptyWorld
        [.startNodeSpan "A" "R1", .stopNodeSpan "A", .startNodeSpan "A" "R1",
         .stopNodeSpan "A"] = .ok (h, w) ∧
      w.calls = [.StartSpan "A" [.RPCServerOption none], .SetTag 1 "async" "true",
        .SetTag 1 "request" "R1", .SetTag 1 "node" "A", .Finish 1,
        .StartSpan "A" [.RPCServerOption none], .SetTag 2 "async" "true",
        .SetTag 2 "request" "R1", .SetTag 2 "node" "A", .Finish 2] ∧
      (∀ s, w.calls.count (.Finish s) ≤ 1) ∧
      StopsUnfinished sampleTracer emptyHandler emptyWorld
        [.startNodeSpan "A" "R1", .stopNodeSpan "A", .startNodeSpan "A" "R1",
         .stopNodeSpan "A"] ∧
      run sampleTracer h w [.stopNodeSpan "A", .stopNodeSpan "A"] =
        .ok (h, (w.call (.Finish 2)).call (.Finish 2)) := by
  have hr : run sampleTracer emptyHandler emptyWorld
      [.startNodeSpan "A" "R1", .stopNodeSpan "A", .startNodeSpan "A" "R1",
       .stopNodeSpan "A"] = .ok (_, _) := rfl
  have hw := finish_once_iff_no_stop_of_finished_span sampleTracer _ _ _ hr
  have hc := hw.2.1 sampleTracer_fresh rfl
  exact ⟨_, _, hr, rfl, hc, hw.1.mp hc, hw.2.2.2.1 "A" 2 rfl⟩

/-! Parent of a node span: the exact condition. -/

/-- Operations other than `startReqSpan` and `continueReqSpan` leave the owned
request span and the request context as they are. -/
theorem step_request_unchanged (t : Tracer) (h h1 : traceHandler) (w w1 : World) (op : Op)
    (hop1 : ∀ r, op ≠ .startReqSpan r) (hop2 : ∀ r hd, op ≠ .continueReqSpan r hd)
    (hr : step t h w op = .ok (h1, w1)) :
    h1.reqSpan = h.reqSpan ∧ h1.reqSpanCtx = h.reqSpanCtx := by
  cases op with
  | startReqSpan reqID => exact absurd rfl (hop1 reqID)
  | continueReqSpan reqID header => exact absurd rfl (hop2 reqID header)
  | extendReqSpan reqID lastNode url reqHeader =>
    simp only [step] at hr
    split at hr
    · simp at hr
    · rename_i h2 w2 hdr heq
      simp only [Except.ok.injEq, Prod.mk.injEq] at hr
      obtain ⟨rfl, rfl⟩ := hr
      cases hn : h.nodeSpan lastNode with
      | none =>
        simp only [extendReqSpan, hn, Except.ok.injEq, Prod.mk.injEq] at heq
        rw [← heq.1]
        exact ⟨rfl, rfl⟩
      | some s =>
        obtain ⟨w3, hdr3, hr3, -⟩ := extendReqSpan_known t h w reqID lastNode url reqHeader s hn
        rw [hr3] at heq
        simp only [Except.ok.injEq, Prod.mk.injEq] at heq
        rw [← heq.1]
        exact ⟨rfl, rfl⟩
  | stopReqSpan =>
    simp only [step, stopReqSpan] at hr
    split at hr <;> simp only [Except.ok.injEq, Prod.mk.injEq] at hr <;>
      (rw [← hr.1]; exact ⟨rfl, rfl⟩)
  | startNodeSpan node reqID =>
    obtain ⟨m, s, hm, hs⟩ := startNodeSpan_inv t h h1 w w1 node reqID hr
    simp only [step] at hr
    rw [startNodeSpan_ok t h w node reqID m s hm hs] at hr
    simp only [Except.ok.injEq, Prod.mk.injEq] at hr
    rw [← hr.1]
    exact ⟨rfl, rfl⟩
  | stopNodeSpan node =>
    simp only [step, stopNodeSpan] at hr
    split at hr
    · simp at hr
    · simp only [Except.ok.injEq, Prod.mk.injEq] at hr
      rw [← hr.1]
      exact ⟨rfl, rfl⟩
  | startOperationSpan node reqID operationID =>
    simp only [step] at hr
    cases hn : h.nodeSpan node with
    | none =>
      simp only [startOperationSpan, hn, Except.ok.injEq, Prod.mk.injEq] at hr
      rw [← hr.1]
      exact ⟨rfl, rfl⟩
    | some sn =>
      obtain ⟨outer, so, ho, hi, hs⟩ :=
        startOperationSpan_inv t h h1 w w1 node reqID operationID sn hn hr
      obtain ⟨h2, hr2, -, -, -, -, hrs, hrc⟩ :=
        startOperationSpan_ok t h w node reqID operationID outer sn so hn ho hi hs
      rw [hr2] at hr
      simp only [Except.ok.injEq, Prod.mk.injEq] at hr
      rw [← hr.1]
      exact ⟨hrs, hrc⟩
  | stopOperationSpan node operationID =>
    simp only [step, stopOperationSpan] at hr
    split at hr
    · simp only [Except.ok.injEq, Prod.mk.injEq] at hr
      rw [← hr.1]
      exact ⟨rfl, rfl⟩
    · split at hr
      · simp at hr
      · simp only [Except.ok.injEq, Prod.mk.injEq] at hr
        rw [← hr.1]
        exact ⟨rfl, rfl⟩
  | flushTracer =>
    simp only [step, flushTracer, Except.ok.injEq, Prod.mk.injEq] at hr
    rw [← hr.1]
    exact ⟨rfl, rfl⟩

/-- One operation moves the request trace as `ReqTrace.next` says, on a backend that
never hands out a span twice and extracts only remote contexts. -/
theorem reqTrace_step (t : Tracer) (hx : RemoteExtract t)
    (h h1 : traceHandler) (w w1 : World) (op : Op) (tr : ReqTrace)
    (hi : Inv t h w) (ht : tr.Holds h w) (hr : step t h w op = .ok (h1, w1)) :
    (tr.next op).Holds h1 w1 := by
  by_cases hstart : ∃ r, op = .startReqSpan r
  · obtain ⟨r, rfl⟩ := hstart
    obtain ⟨s, hs⟩ := startReqSpan_inv t h h1 w w1 r hr
    simp only [step] at hr
    rw [startReqSpan_ok t h w r s hs] at hr
    simp only [Except.ok.injEq, Prod.mk.injEq] at hr
    obtain ⟨rfl, rfl⟩ := hr
    have hnext : tr.next (.startReqSpan r) = .live := by cases tr <;> rfl
    rw [hnext]
    refine ⟨s, rfl, rfl, ?_⟩
    intro hm
    simp only [List.mem_append, List.mem_cons, List.mem_singleton, List.not_mem_nil,
      or_false] at hm
    rcases hm with hm | hm | hm
    · exact (hi.finishedRetired s hm).ne_answer hs rfl
    · cases hm
    · cases hm
  by_cases hcont : ∃ r hd, op = .continueReqSpan r hd
  · obtain ⟨r, hd, rfl⟩ := hcont
    have hctx : h1.reqSpanCtx = (t.Extract w.calls hd).1 := by
      simp only [step, continueReqSpan] at hr
      split at hr <;> simp only [Except.ok.injEq, Prod.mk.injEq] at hr <;> rw [← hr.1]
    have hnext : tr.next (.continueReqSpan r hd) = .unowned := by cases tr <;> rfl
    rw [hnext]
    intro s hs
    rw [hctx] at hs
    exact hx _ _ s hs
  have hop1 : ∀ r, op ≠ .startReqSpan r := fun r hc => hstart ⟨r, hc⟩
  have hop2 : ∀ r hd, op ≠ .continueReqSpan r hd := fun r hd hc => hcont ⟨r, hd, hc⟩
  obtain ⟨hrs, hrc⟩ := step_request_unchanged t h h1 w w1 op hop1 hop2 hr
  obtain ⟨l, hl⟩ := run_calls_extend t [op] h h1 w w1 (by simp [run, hr])
  by_cases hstop : op = .stopReqSpan
  · subst hstop
    simp only [step, stopReqSpan] at hr
    cases tr with
    | unowned =>
      intro s hs
      rw [hrc] at hs
      exact ht s hs
    | live =>
      obtain ⟨s, hc, hq, -⟩ := ht
      rw [hq] at hr
      simp only [Except.ok.injEq, Prod.mk.injEq] at hr
      obtain ⟨rfl, rfl⟩ := hr
      exact ⟨s, hc, hq, by simp [World.call]⟩
    | stopped =>
      obtain ⟨s, hc, hq, hm⟩ := ht
      refine ⟨s, hrc ▸ hc, hrs ▸ hq, ?_⟩
      rw [hl]
      exact List.mem_append_left _ hm
  · have hnext : tr.next op = tr := by
      cases op with
      | startReqSpan r => exact absurd rfl (hop1 r)
      | continueReqSpan r hd => exact absurd rfl (hop2 r hd)
      | stopReqSpan => exact absurd rfl hstop
      | extendReqSpan reqID lastNode url reqHeader => cases tr <;> rfl
      | startNodeSpan node reqID => cases tr <;> rfl
      | stopNodeSpan node => cases tr <;> rfl
      | startOperationSpan node reqID operationID => cases tr <;> rfl
      | stopOperationSpan node operationID => cases tr <;> rfl
      | flushTracer => cases tr <;> rfl
    rw [hnext]
    cases tr with
    | unowned =>
      intro s hs
      rw [hrc] at hs
      exact ht s hs
    | live =>
      obtain ⟨s, hc, hq, hm⟩ := ht
      refine ⟨s, hrc ▸ hc, hrs ▸ hq, ?_⟩
      intro hm1
      cases step_effect t h h1 w w1 op hr with
      | start K name opts s' tags hK hnostop hans hcalls htags hst hframe hparent hctx hopts =>
        rw [hcalls] at hm1
        simp only [List.mem_append, List.mem_cons] at hm1
        rcases hm1 with hm1 | hm1 | hm1
        · exact hm hm1
        · cases hm1
        · obtain ⟨k, v, hkv⟩ := htags _ hm1
          cases hkv
      | stop K s0 hstops hst hcalls hh =>
        rw [hcalls] at hm1
        simp only [List.mem_append, List.mem_singleton, Call.Finish.injEq] at hm1
        rcases hm1 with hm1 | hm1
        · exact hm hm1
        · subst hm1
          have hKr : K = .req := hi.injective K .req s hst hq
          subst hKr
          cases op <;> simp [Op.stops] at hstops
          exact hstop rfl
      | quiet l' hnostart hcalls hnofin hnonew hframe hreq =>
        rw [hcalls] at hm1
        simp only [List.mem_append] at hm1
        rcases hm1 with hm1 | hm1
        · exact hm hm1
        · exact hnofin s hm1
    | stopped =>
      obtain ⟨s, hc, hq, hm⟩ := ht
      refine ⟨s, hrc ▸ hc, hrs ▸ hq, ?_⟩
      rw [hl]
      exact List.mem_append_left _ hm

/-- After a run from a state in which the request trace `tr` holds, the request trace
moved along the operations holds. -/
theorem reqTrace_run (t : Tracer) (hf : Fresh t) (hx : RemoteExtract t) :
    ∀ (ops : List Op) (tr : ReqTrace) (h h1 : traceHandler) (w w1 : World),
      Inv t h w → tr.Holds h w → run t h w ops = .ok (h1, w1) →
      (ops.foldl ReqTrace.next tr).Holds h1 w1 := by
  intro ops
  induction ops with
  | nil =>
    intro tr h h1 w w1 _ ht hr
    simp only [run, Except.ok.injEq, Prod.mk.injEq] at hr
    obtain ⟨rfl, rfl⟩ := hr
    exact ht
  | cons op ops ih =>
    intro tr h h1 w w1 hi ht hr
    simp only [run] at hr
    split at hr
    · simp at hr
    · rename_i h2 w2 heq
      exact ih (tr.next op) h2 h1 w2 w1 (Inv.effect hf hi (step_effect t h h2 w w2 op heq))
        (reqTrace_step t hx h h2 w w2 op tr hi ht heq) hr

/-! Spans that are replaced: when they are orphaned. -/

/-- A start operation on the only place that holds span `s`, on a backend that will
not answer `s` again, orphans `s`. -/
theorem orphaned_by_start (t : Tracer) (h h1 : traceHandler) (w w1 : World) (op : Op)
    (K : Key) (s : Span) (hs : StoredOnlyAt h K s) (hret : Retired t w.calls s)
    (hp : ∀ n o, K = .operation n o → ∃ sn, h.nodeSpan n = some sn)
    (hop : op.starts = some K) (hst : step t h w op = .ok (h1, w1)) :
    Orphaned t s w.calls h1 w1 := by
  obtain ⟨a, b, c⟩ := (step_effect t h h1 w w1 op hst).replaces K s hs.2 hret hp hop
  have ho := orphaned_of_unstored t s h1 w1 a b
  exact ⟨ho.1, fun ops2 h2 w2 hr2 => ⟨(ho.2 ops2 h2 w2 hr2).1, ((ho.2 ops2 h2 w2 hr2).2).trans c⟩⟩

/-- C20, as stated, fails on a backend that hands out spans again (1, 2, 1, 2, ...),
although each replacing call answers a span different from the one it replaces.
Span 1 of node `A`, unfinished, is replaced by span 2; a later `startNodeSpan B`
is answered span 1 again and `stopNodeSpan B` issues `Finish` on it. And when nodes
`A` and `C` both hold span 1, starting `A` again leaves span 1 stored for `C`. -/
theorem replaced_span_recycled_by_backend :
    (∃ h w h1 w1 h2 w2,
      run recyclingTracer emptyHandler emptyWorld [.startNodeSpan "A" "R1"] = .ok (h, w) ∧
      h.nodeSpan "A" = some 1 ∧ Call.Finish 1 ∉ w.calls ∧
      startNodeSpan recyclingTracer h w "A" "R1" = .ok (h1, w1) ∧
      h1.nodeSpan "A" = some 2 ∧
      run recyclingTracer h1 w1 [.startNodeSpan "B" "R1", .stopNodeSpan "B"] = .ok (h2, w2) ∧
      Call.Finish 1 ∈ w2.calls) ∧
    (∃ h w h1 w1,
      run recyclingTracer emptyHandler emptyWorld
        [.startNodeSpan "A" "R1", .startNodeSpan "B" "R1", .startNodeSpan "C" "R1"] =
        .ok (h, w) ∧
      h.nodeSpan "A" = some 1 ∧ Call.Finish 1 ∉ w.calls ∧
      startNodeSpan recyclingTracer h w "A" "R1" = .ok (h1, w1) ∧
      h1.nodeSpan "A" = some 2 ∧ h1.nodeSpan "C" = some 1) := by
  constructor
  · refine ⟨⟨none, none, some (mapSet (fun _ => none) "A" (some 1)), some fun _ => none⟩,
      ⟨[.StartSpan "A" [.RPCServerOption none], .SetTag 1 "async" "true",
        .SetTag 1 "request" "R1", .SetTag 1 "node" "A"], []⟩,
      ⟨none, none, some (mapSet (mapSet (fun _ => none) "A" (some 1)) "A" (some 2)),
        some fun _ => none⟩,
      ⟨[.StartSpan "A" [.RPCServerOption none], .SetTag 1 "async" "true",
        .SetTag 1 "request" "R1", .SetTag 1 "node" "A",
        .StartSpan "A" [.RPCServerOption none], .SetTag 2 "async" "true",
        .SetTag 2 "request" "R1", .SetTag 2 "node" "A"], []⟩,
      _, _, rfl, rfl, by decide, rfl, rfl, rfl, by decide⟩
  · refine ⟨⟨none, none, some (mapSet (mapSet (mapSet (fun _ => none) "A" (some 1))
        "B" (some 2)) "C" (some 1)), some fun _ => none⟩,
      ⟨[.StartSpan "A" [.RPCServerOption none], .SetTag 1 "async" "true",
        .SetTag 1 "request" "R1", .SetTag 1 "node" "A",
        .StartSpan "B" [.RPCServerOption none], .SetTag 2 "async" "true",
        .SetTag 2 "request" "R1", .SetTag 2 "node" "B",
        .StartSpan "C" [.RPCServerOption none], .SetTag 1 "async" "true",
        .SetTag 1 "request" "R1", .SetTag 1 "node" "C"], []⟩,
      _, _, rfl, rfl, by decide, rfl, rfl, rfl⟩

/-- C20, amended: starting over a live entry orphans the earlier span when that span
is stored at no other place of the handler and the backend does not hand it out
again. If `nodeSpans[N]` holds such a span `s` and `startNodeSpan N r` is called again,
then `s` is stored nowhere in the handler afterwards, and no later run stores it or
issues `Finish` on it; the same holds for an owned request span replaced by a second
`startReqSpan` or dropped by a successful `continueReqSpan`, and for an operation span
replaced by a second `startOperationSpan` with the same node and operation while the
node holds a span. Both conditions hold for every stored span in every state reached
from the empty handler on a backend that never hands out the same span twice. -/
theorem replaced_span_is_orphaned_unless_recycled (t : Tracer) (h : traceHandler)
    (w : World) (s : Span) :
    (∀ N r h1 w1, StoredOnlyAt h (.node N) s → Retired t w.calls s →
      startNodeSpan t h w N r = .ok (h1, w1) → Orphaned t s w.calls h1 w1) ∧
    (∀ r h1 w1, StoredOnlyAt h .req s → Retired t w.calls s →
      startReqSpan t h w r = .ok (h1, w1) → Orphaned t s w.calls h1 w1) ∧
    (∀ r hdr h1 w1, StoredOnlyAt h .req s → Retired t w.calls s →
      (t.Extract w.calls hdr).2 = none →
      continueReqSpan t h w r hdr = .ok (h1, w1) → Orphaned t s w.calls h1 w1) ∧
    (∀ N r o sn h1 w1, StoredOnlyAt h (.operation N o) s → Retired t w.calls s →
      h.nodeSpan N = some sn →
      startOperationSpan t h w N r o = .ok (h1, w1) → Orphaned t s w.calls h1 w1) ∧
    (Fresh t → ∀ ops, run t emptyHandler emptyWorld ops = .ok (h, w) →
      ∀ K, h.stored K = some s →
        StoredOnlyAt h K s ∧ Retired t w.calls s ∧
        ∀ N o, K = .operation N o → ∃ sn, h.nodeSpan N = some sn) := by
  refine ⟨?_, ?_, ?_, ?_, ?_⟩
  · intro N r h1 w1 hs hret hst
    exact orphaned_by_start t h h1 w w1 (.startNodeSpan N r) (.node N) s hs hret
      (by intro n o hc; cases hc) rfl hst
  · intro r h1 w1 hs hret hst
    exact orphaned_by_start t h h1 w w1 (.startReqSpan r) .req s hs hret
      (by intro n o hc; cases hc) rfl hst
  · intro r hdr h1 w1 hs hret hx hst
    simp only [continueReqSpan, hx, Except.ok.injEq, Prod.mk.injEq] at hst
    obtain ⟨rfl, rfl⟩ := hst
    have hns : ∀ K, traceHandler.stored
        { h with reqSpanCtx := (t.Extract w.calls hdr).1, reqSpan := none } K ≠ some s := by
      intro K hK
      cases K with
      | req => cases hK
      | node n => exact Key.noConfusion (hs.2 (.node n) hK)
      | operation n o => exact Key.noConfusion (hs.2 (.operation n o) hK)
    have ho := orphaned_of_unstored t s _ (w.call (.Extract hdr)) hns (hret.mono _)
    refine ⟨ho.1, fun ops2 h2 w2 hr2 => ⟨(ho.2 ops2 h2 w2 hr2).1, ?_⟩⟩
    rw [(ho.2 ops2 h2 w2 hr2).2]
    simp [World.call, List.count_append]
  · intro N r o sn h1 w1 hs hret hn hst
    refine orphaned_by_start t h h1 w w1 (.startOperationSpan N r o) (.operation N o) s hs hret
      ?_ rfl hst
    intro n o' hc
    simp only [Key.operation.injEq] at hc
    exact ⟨sn, hc.1 ▸ hn⟩
  · intro hf ops hr K hs
    have hi := Inv.reachable hf ops h w hr
    refine ⟨⟨hs, fun K' hK' => hi.injective K' K s hK' hs⟩, hi.storedRetired K s hs, ?_⟩
    intro N o hK
    subst hK
    exact reachable_parent t ops h w hr N o s hs

/-- Witness for C20 amended: node `A` started twice on the sample backend; span 1 of
the first start is stored only for `A` and is never handed out again, and the second
start, which stores span 2, orphans it. -/
theorem replaced_span_is_orphaned_unless_recycled_witness :
    ∃ h w h1 w1, run sampleTracer emptyHandler emptyWorld [.startNodeSpan "A" "R1"] =
        .ok (h, w) ∧
      StoredOnlyAt h (.node "A") 1 ∧ Retired sampleTracer w.calls 1 ∧
      startNodeSpan sampleTracer h w "A" "R2" = .ok (h1, w1) ∧
      h1.nodeSpan "A" = some 2 ∧
      Orphaned sampleTracer 1 w.calls h1 w1 := by
  have hr : run sampleTracer emptyHandler emptyWorld [.startNodeSpan "A" "R1"] =
      .ok (⟨none, none, some (mapSet (fun _ => none) "A" (some 1)), some fun _ => none⟩,
        ⟨[.StartSpan "A" [.RPCServerOption none], .SetTag 1 "async" "true",
          .SetTag 1 "request" "R1", .SetTag 1 "node" "A"], []⟩) := rfl
  have hs : startNodeSpan sampleTracer
      ⟨none, none, some (mapSet (fun _ => none) "A" (some 1)), some fun _ => none⟩
      ⟨[.StartSpan "A" [.RPCServerOption none], .SetTag 1 "async" "true",
        .SetTag 1 "request" "R1", .SetTag 1 "node" "A"], []⟩ "A" "R2" = .ok (_, _) := rfl
  have hw := replaced_span_is_orphaned_unless_recycled sampleTracer
    ⟨none, none, some (mapSet (fun _ => none) "A" (some 1)), some fun _ => none⟩
    ⟨[.StartSpan "A" [.RPCServerOption none], .SetTag 1 "async" "true",
      .SetTag 1 "request" "R1", .SetTag 1 "node" "A"], []⟩ 1
  obtain ⟨hso, hret, -⟩ := hw.2.2.2.2 sampleTracer_fresh _ hr (.node "A") rfl
  exact ⟨_, _, _, _, hr, hso, hret, hs, rfl, hw.1 "A" "R2" _ _ hso hret hs⟩

/-! The request trace read off the sequence. -/

/-- Splitting a list that ends in `op` before one of its elements. -/
theorem snoc_decomp {α : Type} (ops pre post : List α) (op x : α)
    (h : ops ++ [op] = pre ++ x :: post) :
    (post = [] ∧ ops = pre ∧ op = x) ∨ ∃ post', post = post' ++ [op] ∧ ops = pre ++ x :: post' := by
  rcases List.eq_nil_or_concat post with rfl | ⟨post', y, rfl⟩
  · left
    have h2 := List.append_inj' h rfl
    exact ⟨rfl, h2.1, by simpa using h2.2⟩
  · right
    have h1 : ops ++ [op] = (pre ++ x :: post') ++ [y] := by
      rw [h]; simp
    have h2 := List.append_inj' h1 rfl
    have h3 : op = y := by simpa using h2.2
    exact ⟨post', by rw [h3]; simp, h2.1⟩

/-- The request trace after one more operation. -/
theorem reqTrace_snoc (ops : List Op) (op : Op) :
    reqTrace (ops ++ [op]) = (reqTrace ops).next op := by
  simp [reqTrace, List.foldl_append]

/-- The request trace is live or stopped exactly when the sequence says so. -/
theorem reqTrace_iff (ops : List Op) :
    (reqTrace ops = .live ↔ LiveAfterLatestStart ops) ∧
    (reqTrace ops = .stopped ↔ StoppedAfterLatestStart ops) := by
  induction ops using List.reverseRecOn with
  | nil =>
    constructor
    · constructor
      · intro hc
        cases hc
      · rintro ⟨pre, r, post, hc, -⟩
        simp at hc
    · constructor
      · intro hc
        cases hc
      · rintro ⟨pre, r, post, hc, -⟩
        simp at hc
  | append_singleton ops op ih =>
    rw [reqTrace_snoc]
    -- how a decomposition of the longer sequence looks
    have hlast : ∀ pre r post, ops ++ [op] = pre ++ Op.startReqSpan r :: post →
        (∀ o ∈ post, o.keepsContext) →
        (post = [] ∧ ops = pre ∧ op = .startReqSpan r) ∨
        (∃ post', post = post' ++ [op] ∧ ops = pre ++ Op.startReqSpan r :: post' ∧
          (∀ o ∈ post', o.keepsContext) ∧ op.keepsContext) := by
      intro pre r post hd hk
      rcases snoc_decomp ops pre post op _ hd with ⟨h1, h2, h3⟩ | ⟨post', h1, h2⟩
      · exact Or.inl ⟨h1, h2, h3⟩
      · refine Or.inr ⟨post', h1, h2, ?_, ?_⟩
        · intro o ho
          exact hk o (by rw [h1]; exact List.mem_append_left _ ho)
        · exact hk op (by rw [h1]; simp)
    by_cases hstart : ∃ r, op = .startReqSpan r
    · obtain ⟨r, rfl⟩ := hstart
      have hnext : (reqTrace ops).next (.startReqSpan r) = .live := by
        cases reqTrace ops <;> rfl
      rw [hnext]
      constructor
      · simp only [true_iff]
        exact ⟨ops, r, [], rfl, by simp, by simp⟩
      · simp only [reduceCtorEq, false_iff]
        rintro ⟨pre, r', post, hd, hk, hs⟩
        rcases hlast pre r' post hd hk with ⟨h1, -, -⟩ | ⟨post', -, -, -, h4⟩
        · rw [h1] at hs
          cases hs
        · exact h4.1 r rfl
    by_cases hcont : ∃ r hd, op = .continueReqSpan r hd
    · obtain ⟨r, hd, rfl⟩ := hcont
      have hnext : (reqTrace ops).next (.continueReqSpan r hd) = .unowned := by
        cases reqTrace ops <;> rfl
      rw [hnext]
      constructor
      · simp only [reduceCtorEq, false_iff]
        rintro ⟨pre, r', post, hdc, hk, -⟩
        rcases hlast pre r' post hdc hk with ⟨-, -, h3⟩ | ⟨post', -, -, -, h4⟩
        · cases h3
        · exact h4.2 r hd rfl
      · simp only [reduceCtorEq, false_iff]
        rintro ⟨pre, r', post, hdc, hk, -⟩
        rcases hlast pre r' post hdc hk with ⟨-, -, h3⟩ | ⟨post', -, -, -, h4⟩
        · cases h3
        · exact h4.2 r hd rfl
    have hkeep : op.keepsContext :=
      ⟨fun r hc => hstart ⟨r, hc⟩, fun r hd hc => hcont ⟨r, hd, hc⟩⟩
    by_cases hstop : op = .stopReqSpan
    · subst hstop
      constructor
      · have hne : (reqTrace ops).next .stopReqSpan ≠ .live := by
          cases reqTrace ops <;> simp [ReqTrace.next]
        simp only [hne, false_iff]
        rintro ⟨pre, r', post, hdc, hk, hs⟩
        rcases hlast pre r' post hdc hk with ⟨-, -, h3⟩ | ⟨post', h1, -, -, -⟩
        · cases h3
        · exact hs (by rw [h1]; simp)
      · have hst : (reqTrace ops).next .stopReqSpan = .stopped ↔
            (reqTrace ops = .live ∨ reqTrace ops = .stopped) := by
          cases reqTrace ops <;> simp [ReqTrace.next]
        rw [hst, ih.1, ih.2]
        constructor
        · rintro (⟨pre, r', post, hdc, hk, -⟩ | ⟨pre, r', post, hdc, hk, -⟩)
          · refine ⟨pre, r', post ++ [.stopReqSpan], by rw [hdc]; simp, ?_, by simp⟩
            intro o ho
            rcases List.mem_append.mp ho with ho | ho
            · exact hk o ho
            · rw [List.mem_singleton.mp ho]; exact hkeep
          · refine ⟨pre, r', post ++ [.stopReqSpan], by rw [hdc]; simp, ?_, by simp⟩
            intro o ho
            rcases List.mem_append.mp ho with ho | ho
            · exact hk o ho
            · rw [List.mem_singleton.mp ho]; exact hkeep
        · rintro ⟨pre, r', post, hdc, hk, -⟩
          rcases hlast pre r' post hdc hk with ⟨-, -, h3⟩ | ⟨post', -, h2, h3, -⟩
          · cases h3
          · by_cases hm : Op.stopReqSpan ∈ post'
            · exact Or.inr ⟨pre, r', post', h2, h3, hm⟩
            · exact Or.inl ⟨pre, r', post', h2, h3, hm⟩
    · have hnext : (reqTrace ops).next op = reqTrace ops := by
        cases op with
        | startReqSpan r => exact absurd rfl (hkeep.1 r)
        | continueReqSpan r hd => exact absurd rfl (hkeep.2 r hd)
        | stopReqSpan => exact absurd rfl hstop
        | extendReqSpan reqID lastNode url reqHeader => cases reqTrace ops <;> rfl
        | startNodeSpan node reqID => cases reqTrace ops <;> rfl
        | stopNodeSpan node => cases reqTrace ops <;> rfl
        | startOperationSpan node reqID operationID => cases reqTrace ops <;> rfl
        | stopOperationSpan node operationID => cases reqTrace ops <;> rfl
        | flushTracer => cases reqTrace ops <;> rfl
      rw [hnext, ih.1, ih.2]
      have hext : ∀ pre r' post, ops = pre ++ Op.startReqSpan r' :: post →
          ops ++ [op] = pre ++ Op.startReqSpan r' :: (post ++ [op]) := by
        intro pre r' post hd
        rw [hd]; simp
      have hk1 : ∀ post : List Op, (∀ o ∈ post, o.keepsContext) →
          ∀ o ∈ post ++ [op], o.keepsContext := by
        intro post hk o ho
        rcases List.mem_append.mp ho with ho | ho
        · exact hk o ho
        · rw [List.mem_singleton.mp ho]; exact hkeep
      have hmem : ∀ post : List Op, Op.stopReqSpan ∈ post ++ [op] ↔ Op.stopReqSpan ∈ post := by
        intro post
        simp [Ne.symm hstop]
      constructor
      · constructor
        · rintro ⟨pre, r', post, hdc, hk, hs⟩
          exact ⟨pre, r', post ++ [op], hext pre r' post hdc, hk1 post hk,
            fun hc => hs ((hmem post).mp hc)⟩
        · rintro ⟨pre, r', post, hdc, hk, hs⟩
          rcases hlast pre r' post hdc hk with ⟨-, -, h3⟩ | ⟨post', h1, h2, h3, -⟩
          · exact absurd h3 (hkeep.1 r')
          · exact ⟨pre, r', post', h2, h3, fun hc => hs (by rw [h1]; exact (hmem post').mpr hc)⟩
      · constructor
        · rintro ⟨pre, r', post, hdc, hk, hs⟩
          exact ⟨pre, r', post ++ [op], hext pre r' post hdc, hk1 post hk, (hmem post).mpr hs⟩
        · rintro ⟨pre, r', post, hdc, hk, hs⟩
          rcases hlast pre r' post hdc hk with ⟨-, -, h3⟩ | ⟨post', h1, h2, h3, -⟩
          · exact absurd h3 (hkeep.1 r')
          · exact ⟨pre, r', post', h2, h3, by rw [h1] at hs; exact (hmem post').mp hs⟩

/-- C15, amended: on a backend that never hands out the same span twice and whose
`Extract` answers only contexts of other processes, after every run from the empty
handler that returns normally, a `startNodeSpan` that returns normally asks the
backend for a span whose parent is the current `reqSpanCtx`; that parent is not the
context of a span that has already received `Finish`, unless the operations after the
latest `startReqSpan` include a `stopReqSpan` and no `continueReqSpan`, and then it is
the context of the owned request span, which has received `Finish`. -/
theorem startNodeSpan_parent_finished_iff_request_stopped (t : Tracer) (hf : Fresh t)
    (hx : RemoteExtract t) (ops : List Op) (h : traceHandler) (w : World)
    (hr : run t emptyHandler emptyWorld ops = .ok (h, w)) :
    (∀ node reqID h1 w1, startNodeSpan t h w node reqID = .ok (h1, w1) →
      ∃ tags, w1.calls =
          w.calls ++ Call.StartSpan node [.RPCServerOption h.reqSpanCtx] :: tags ∧
        parentOf [.RPCServerOption h.reqSpanCtx] = h.reqSpanCtx) ∧
    ((∀ s, h.reqSpanCtx = some (.ofSpan s) → Call.Finish s ∉ w.calls) ↔
      ¬ StoppedAfterLatestStart ops) ∧
    (StoppedAfterLatestStart ops →
      ∃ s, h.reqSpanCtx = some (.ofSpan s) ∧ h.reqSpan = some s ∧
        Call.Finish s ∈ w.calls) := by
  rw [← (reqTrace_iff ops).2]
  have hold : (reqTrace ops).Holds h w :=
    reqTrace_run t hf hx ops .unowned emptyHandler h emptyWorld w (Inv.empty t)
      (by intro s hs; cases hs) hr
  refine ⟨?_, ?_, ?_⟩
  · intro node reqID h1 w1 hs
    obtain ⟨m, s', hm, hans⟩ := startNodeSpan_inv t h h1 w w1 node reqID hs
    rw [startNodeSpan_ok t h w node reqID m s' hm hans] at hs
    simp only [Except.ok.injEq, Prod.mk.injEq] at hs
    obtain ⟨-, rfl⟩ := hs
    refine ⟨_, rfl, ?_⟩
    cases h.reqSpanCtx <;> rfl
  · cases htr : reqTrace ops with
    | unowned =>
      rw [htr] at hold
      simp only [ne_eq, not_false_eq_true, iff_true, reduceCtorEq]
      intro s hs
      exact absurd hs (hold s)
    | live =>
      rw [htr] at hold
      obtain ⟨s, hc, -, hm⟩ := hold
      simp only [ne_eq, not_false_eq_true, iff_true, reduceCtorEq]
      intro s' hs'
      rw [hc] at hs'
      simp only [Option.some.injEq, SpanContext.ofSpan.injEq] at hs'
      rw [← hs']; exact hm
    | stopped =>
      rw [htr] at hold
      obtain ⟨s, hc, -, hm⟩ := hold
      simp only [ne_eq, not_true_eq_false, iff_false]
      intro hall
      exact hall s hc hm
  · intro htr
    rw [htr] at hold
    exact hold

/-- Witness for C15 amended: on the sample backend, after a request was started,
stopped and started again, and after a request was continued and stopped, a node span
is parented on an unfinished context; after start and stop it is parented on the
finished request span. -/
theorem startNodeSpan_parent_finished_iff_request_stopped_witness :
    (∃ h w, run sampleTracer emptyHandler emptyWorld
        [.startReqSpan "R1", .stopReqSpan, .startReqSpan "R2"] = .ok (h, w) ∧
      h.reqSpanCtx = some (.ofSpan 2) ∧
      ∀ s, h.reqSpanCtx = some (.ofSpan s) → Call.Finish s ∉ w.calls) ∧
    (∃ h w, run sampleTracer emptyHandler emptyWorld
        [.continueReqSpan "R1" [("Uber-Trace-Id", ["x"])], .stopReqSpan] = .ok (h, w) ∧
      h.reqSpanCtx = some (.remote 7) ∧
      ∀ s, h.reqSpanCtx = some (.ofSpan s) → Call.Finish s ∉ w.calls) ∧
    (∃ h w, run sampleTracer emptyHandler emptyWorld
        [.startReqSpan "R1", .stopReqSpan] = .ok (h, w) ∧
      ∃ s, h.reqSpanCtx = some (.ofSpan s) ∧ h.reqSpan = some s ∧
        Call.Finish s ∈ w.calls) := by
  have hr1 : run sampleTracer emptyHandler emptyWorld
      [.startReqSpan "R1", .stopReqSpan, .startReqSpan "R2"] = .ok (_, _) := rfl
  have hr2 : run sampleTracer emptyHandler emptyWorld
      [.continueReqSpan "R1" [("Uber-Trace-Id", ["x"])], .stopReqSpan] = .ok (_, _) := rfl
  have hr3 : run sampleTracer emptyHandler emptyWorld
      [.startReqSpan "R1", .stopReqSpan] = .ok (_, _) := rfl
  exact ⟨⟨_, _, hr1, rfl,
      (startNodeSpan_parent_finished_iff_request_stopped sampleTracer sampleTracer_fresh
        sampleTracer_remoteExtract _ _ _ hr1).2.1.mpr
        (fun hc => absurd ((reqTrace_iff _).2.mpr hc) (by decide))⟩,
    ⟨_, _, hr2, rfl,
      (startNodeSpan_parent_finished_iff_request_stopped sampleTracer sampleTracer_fresh
        sampleTracer_remoteExtract _ _ _ hr2).2.1.mpr
        (fun hc => absurd ((reqTrace_iff _).2.mpr hc) (by decide))⟩,
    ⟨_, _, hr3,
      (startNodeSpan_parent_finished_iff_request_stopped sampleTracer sampleTracer_fresh
        sampleTracer_remoteExtract _ _ _ hr3).2.2
        ((reqTrace_iff _).2.mp (by decide))⟩⟩

end Executor
